import Mathlib

/-!
# Verification of the GarmentCode pattern-operator library

Shallow embedding of the repository's Python sources:

* `src/pypattern/edge.py`      — `LogicalEdge` (length, equality, flip)
* `src/pypattern/operators.py` — `cut_corner`, `project`, `distribute_Y`
  and the helpers `_shift_edge_verts`, `_scale_edges_from_start`
* `src/svg_holes.py`           — `split_half_svg_paths`
* `src/utility scripts/darts_dev.py` — `dart`

2-D coordinates are embedded as exact rationals (the Python code works on
floats; every claim under study is an exact statement about the arithmetic
the code performs).  The `dart` routine of `darts_dev.py` uses `sqrt`,
`arctan` and `arcsin`, so it is embedded over the reals in its own
namespace further below.

Python object identity of edges (used by `intr.edge is edge1`) is embedded
by tagging every edge with a numeric id `eid`; a `deepcopy` produces fresh
ids.  Vertex aliasing — chained sequences built by this library share the
actual vertex *objects* between a `.end` and the following `.start`
(`simple_loop`, `side_with_cut`, and `deepcopy` of a whole list preserve
that sharing) — is embedded by applying a mutation of a shared vertex to
both of its occurrences; each such place is noted next to its definition.
-/

namespace GarmentCode

/-- A 2-D point with exact rational coordinates. -/
abbrev Point : Type := ℚ × ℚ

/-- `LogicalEdge` from `edge.py`: a straight segment from `s` to `e`.
`eid` models Python object identity (fresh objects get fresh ids). -/
structure LEdge where
  eid : ℕ
  s : Point
  e : Point
deriving DecidableEq, Repr

/-- A junk edge used only as the default of `headD`/`getLastD` at places
where the surrounding code guarantees the list is nonempty. -/
def junkE : LEdge := ⟨0, ((0 : ℚ), (0 : ℚ)), ((0 : ℚ), (0 : ℚ))⟩

/-- `InterfaceInstance` from `connector.py` as used by `operators.py`:
it stores a reference to the panel (irrelevant here) and to one edge.
The edge reference is embedded as the edge's id, since the source only
ever compares it with `is` (object identity). -/
structure Interface where
  edgeId : ℕ
deriving DecidableEq, Repr

/-- A `Panel`: its boundary edges and its interfaces, as read and mutated
by the operators in `operators.py`. -/
structure Panel where
  edges : List LEdge
  interfaces : List Interface
deriving DecidableEq, Repr

/-- Result of a `scipy.optimize.minimize` call: convergence flag
(`out.success`), the found parameters (`out.x`, two scalars) and the final
objective value (`out.fun`).  The optimizer is a black-box numerical
routine, so `cut_corner` below takes its two results as parameters; every
theorem quantifies over them. -/
structure FitResult where
  success : Bool
  x : ℚ × ℚ
  fval : ℚ
deriving DecidableEq, Repr

/-- `deepcopy` of a whole edge list: same coordinates, fresh object ids
`fresh`, `fresh+1`, … (internal vertex sharing of a chained list is
preserved by a single whole-list `deepcopy`). -/
def relabel : List LEdge → ℕ → List LEdge
  | [], _ => []
  | e :: t, fresh => ⟨fresh, e.s, e.e⟩ :: relabel t (fresh + 1)

/-- `LogicalEdge.flip` (edge.py line 67): swap start and end. -/
def flipE (e : LEdge) : LEdge := ⟨e.eid, e.e, e.s⟩

/-- `corner_shape.reverse()` followed by `e.flip()` on every edge
(operators.py lines 84-88 and 133-137). -/
def flipSeq (es : List LEdge) : List LEdge := (es.map flipE).reverse

/-- `_shift_edge_verts` (operators.py lines 168-178): the source shifts
`edge_seq[0].start` and every `e.end`; on a chained sequence every later
`.start` is the same vertex object as the previous `.end`, so the net
effect is that every endpoint of every edge is shifted. -/
def shiftSeq (es : List LEdge) (sh : Point) : List LEdge :=
  es.map fun e => ⟨e.eid, e.s + sh, e.e + sh⟩

/-- `_scale_edges_from_start` (operators.py lines 180-190).  The source
reads `v_start = edge_seq[0].start` (never mutated) and then updates every
`e.end` in place:
`e.end[0] = scale * (e.end[0] - v_start[0]) + v_start[0]` and then — with
`e.end[0]` already updated — `e.end[1] = scale * (e.end[0] - v_start[0]) +
v_start[0]` (line 190 reads index 0, not 1, on both `e.end` and
`v_start`).  On a chained sequence each later `.start` is the previous
`.end`, so it receives the same update; the first `.start` is untouched. -/
def scalePt (v0 : Point) (scale : ℚ) (p : Point) : Point :=
  let x := scale * (p.1 - v0.1) + v0.1
  (x, scale * (x - v0.1) + v0.1)

/-- `_scale_edges_from_start` proper: first start untouched, every other
vertex updated by `scalePt` about the first start. -/
def scaleEdgesFromStart (es : List LEdge) (scale : ℚ) : List LEdge :=
  match es with
  | [] => []
  | e0 :: rest =>
    ⟨e0.eid, e0.s, scalePt e0.s scale e0.e⟩ ::
      rest.map fun e => ⟨e.eid, scalePt e0.s scale e.s, scalePt e0.s scale e.e⟩

/-- Python's `list.insert(i, x)`: clamps `i` to the list length. -/
def pyInsert (l : List LEdge) (i : ℕ) (x : LEdge) : List LEdge :=
  l.take i ++ x :: l.drop i

/-- The loop `for i, e in enumerate(corner_shape): panel.edges.insert(eid1 + i, e)`
(operators.py lines 152-153 and 263-264). -/
def insertSeq : List LEdge → ℕ → List LEdge → List LEdge
  | l, _, [] => l
  | l, i, x :: xs => insertSeq (pyInsert l i x) (i + 1) xs

/-- The error message of operators.py line 97. -/
def msgTranslation : String :=
  "Cut_corner::Error::finding the projection (translation) is unsuccessful. Likely an error in edges choice"

/-- The error message of operators.py line 112. -/
def msgScaling : String :=
  "Cut_corner::Error::finding the projection (scaling) is unsuccessful. Likely an error in edges choice"

/-- The fitted corner shape built by `cut_corner` (operators.py lines
74-140): the deepcopy of `target_shape`, its orientation normalisation,
the translation fit, the optional secondary scale fit, the re-flip for a
swapped corner, and the two connector edges.  This is exactly the value
the source holds in `corner_shape` when it reaches line 142.

`fitT` and `fitS` are the results of the two `minimize` calls.  `scale`
stands for the value computed at line 123,
`_dist(shifted[0], shifted[1]) / _dist(shortcut[1], shortcut[0])` — a
Euclidean-norm quotient that is irrational over ℚ, so it is passed as a
parameter; no claim depends on its value.  `fresh` is the first unused
object id, used by the deepcopy and the two connector edges. -/
def mkCornerShape (target : List LEdge) (panel : Panel) (eid1 eid2 : ℕ)
    (fitT fitS : FitResult) (scale : ℚ) (fresh : ℕ) :
    Except String (List LEdge) :=
  match panel.edges[eid1]?, panel.edges[eid2]? with
  | some e1, some e2 =>
    if target.isEmpty then .error "IndexError: list index out of range"
    else
      let cs0 := relabel target fresh
      -- vc, v1, v2 (lines 77-82) feed only the minimize objective (a
      -- black box here); of the swap only the flag matters later.
      let swaped : Bool := decide (e1.s.2 > e2.e.2)
      -- orientation normalisation of the copy (lines 84-88)
      let cs1 := if (cs0.headD junkE).s.2 > (cs0.getLastD junkE).e.2
        then flipSeq cs0 else cs0
      -- lines 131-140, applied to the fitted shape of either branch:
      -- re-orient if the corner vertices were swapped, then complete the
      -- corner with the two connector edges
      let finish : List LEdge → List LEdge := fun cs4 =>
        let cs5 := if swaped then flipSeq cs4 else cs4
        ⟨fresh + target.length, e1.s, (cs5.headD junkE).s⟩ ::
          cs5 ++ [⟨fresh + target.length + 1, (cs5.getLastD junkE).e, e2.e⟩]
      if fitT.success = false then .error msgTranslation
      else
        let shortcut0 := (cs1.headD junkE).s
        let shortcut1 := (cs1.getLastD junkE).e
        let shift := fitT.x
        let shifted0 := shortcut0 + shift
        let shifted1 := shortcut1 + shift
        let cs2 := shiftSeq cs1 shift
        if |fitT.fval| > 1 / 1000 then
          if fitS.success = false then .error msgScaling
          else
            -- lines 114-115: the second update reads the already
            -- updated shifted[0]
            let sh0 := shifted0 + fitS.x.1 • (shifted0 - shifted1)
            let sh1 := shifted1 + fitS.x.2 • (shifted1 - sh0)
            -- line 126: move the sequence, with the final shifted values
            let cs3 := shiftSeq cs2 (fitS.x.1 • (sh0 - sh1))
            -- line 129
            .ok (finish (scaleEdgesFromStart cs3 scale))
        else .ok (finish cs2)
  | _, _ => .error "IndexError: list index out of range"

/-- `cut_corner` (operators.py lines 59-165).  Errors model the raised
`RuntimeError`s (and Python `IndexError` for out-of-range edge ids),
propagated to the caller. -/
def cut_corner (target : List LEdge) (panel : Panel) (eid1 eid2 : ℕ)
    (fitT fitS : FitResult) (scale : ℚ) (fresh : ℕ) : Except String Panel :=
  match mkCornerShape target panel eid1 eid2 fitT fitS scale fresh with
  | .error m => .error m
  | .ok run =>
    match panel.edges[eid1]?, panel.edges[eid2]? with
    | some e1, some e2 =>
      -- lines 143-150: remove the two corner edges (order of pops keeps
      -- the indices valid)
      let edges1 := if eid2 > eid1
        then (panel.edges.eraseIdx eid2).eraseIdx eid1
        else (panel.edges.eraseIdx eid1).eraseIdx eid2
      -- lines 152-153
      let edges2 := insertSeq edges1 eid1 run
      -- lines 155-165: drop interfaces that referenced (object identity)
      -- either removed edge; if there was at least one, add one interface
      -- per edge of the inserted run
      let keep := panel.interfaces.filter
        fun it => !(it.edgeId == e1.eid || it.edgeId == e2.eid)
      let interfaces2 :=
        if panel.interfaces.any (fun it => it.edgeId == e1.eid || it.edgeId == e2.eid)
        then keep ++ run.map (fun e => (⟨e.eid⟩ : Interface))
        else panel.interfaces
      .ok ⟨edges2, interfaces2⟩
    | _, _ => .error "IndexError: list index out of range"

/-- `project` (operators.py lines 224-275).  Line 244 deep-copies every
edge *separately* (`[deepcopy(e) for e in edges]`), so vertex sharing
between consecutive edges of a chained input does **not** survive: the
shift loop of lines 251-253 moves only the `.end` vertices, while line 249
re-binds `edges_copy[0].start` to the target edge's start vertex.  Line
248 computes both components of the shift from the x-coordinates:
`shift = [base.start[0] - copy[0].start[0], base.start[0] - copy[0].start[0]]`. -/
def project (edges : List LEdge) (panel : Panel) (edge_id : ℕ) (fresh : ℕ) :
    Except String Panel :=
  match panel.edges[edge_id]? with
  | none => .error "IndexError: list index out of range"
  | some base =>
    match relabel edges fresh with
    | [] => .error "IndexError: list index out of range"
    | c0 :: crest =>
      let sh : Point := (base.s.1 - c0.s.1, base.s.1 - c0.s.1)
      let copies := ⟨c0.eid, base.s, c0.e + sh⟩ ::
        crest.map fun e => ⟨e.eid, e.s, e.e + sh⟩
      -- line 256: the connector edge closing the gap to the target's end
      let copies2 := copies ++ [⟨fresh + edges.length, (copies.getLastD junkE).e, base.e⟩]
      let edges2 := insertSeq (panel.edges.eraseIdx edge_id) edge_id copies2
      -- lines 267-275: the loop keeps the LAST matching interface index
      let hits := (panel.interfaces.enum.filter fun p => p.2.edgeId == base.eid).map Prod.fst
      match hits.getLast? with
      | none => .ok ⟨edges2, panel.interfaces⟩
      | some i => .ok ⟨edges2, panel.interfaces.eraseIdx i ++
          copies2.map (fun e => (⟨e.eid⟩ : Interface))⟩

/-! ## Chained sequences and closed loops

`chainB a es b`: the edges of `es` link up head-to-tail, starting at
vertex `a` and ending at vertex `b` ("chained" in the source's wording:
each edge starts from the end vertex of the one before).  A panel
boundary is a closed loop when it chains from its first vertex back to
that same vertex. -/

def chainB : Point → List LEdge → Point → Bool
  | a, [], b => decide (a = b)
  | a, e :: t, b => decide (e.s = a) && chainB e.e t b

/-- A closed chained loop: the boundary chains from its first vertex back
to itself. -/
def closedChainB (es : List LEdge) : Bool :=
  match es with
  | [] => true
  | e :: _ => chainB e.s es e.s

/-- A chained (not necessarily closed) edge sequence. -/
def chainedSeq (es : List LEdge) : Bool :=
  chainB ((es.headD junkE).s) es ((es.getLastD junkE).e)

/-- Sum of the directed edge vectors (end minus start) of a boundary. -/
def vecSum (es : List LEdge) : Point :=
  es.foldr (fun e acc => (e.e - e.s) + acc) ((0 : ℚ), (0 : ℚ))

/-- The ids of a list of edges. -/
def edgeIds (es : List LEdge) : List ℕ := es.map LEdge.eid

/-! ## `LogicalEdge.length` and `__eq__` (edge.py)

`length` (lines 39-43) has the body `self.length = norm(...)` — it
*assigns* the computed norm to the attribute `self.length` (shadowing the
method on the instance) and falls off the end, so the call returns
Python's `None`.  Any later `self.length()` call on the same object finds
the stored float instead of the method and raises `TypeError`.

We embed the edge object's mutable state (`EdgeObj`) and a method call as
state
passed explicitly.  The float stored into the shadowed attribute is the
Euclidean norm — irrational over ℚ — so the model records the *squared*
distance; this is harmless: the stored number is never read by any code
path (a second call fails on the callability check before reading it),
only its presence matters. -/

/-- Squared Euclidean distance between two rational points. -/
def distSq (p q : Point) : ℚ :=
  (q.1 - p.1) ^ 2 + (q.2 - p.2) ^ 2

/-- The mutable state of a `LogicalEdge` object relevant to `length` and
`__eq__`: the two vertices, and whether (and with what value) the
`length` attribute has been assigned, shadowing the method. -/
structure EdgeObj where
  s : Point
  e : Point
  lengthAttr : Option ℚ
deriving DecidableEq, Repr

/-- A call `edge.length()` (edge.py lines 39-43).  If a previous call
already stored a float into `self.length`, the name no longer resolves to
the method and the call raises `TypeError`.  Otherwise the body runs:
it assigns the recomputed norm to `self.length` and returns `None`
(there is no `return` statement). -/
def callLength (ed : EdgeObj) : Except String (EdgeObj × Option ℚ) :=
  if ed.lengthAttr.isSome then
    .error "TypeError: 'numpy.float64' object is not callable"
  else
    .ok ({ ed with lengthAttr := some (distSq ed.s ed.e) }, none)

/-- A call `a == b`, i.e. `LogicalEdge.__eq__` (edge.py lines 45-64) on
two edge objects (the `isinstance` test passes).  It evaluates
`self.length() != __o.length()`: both calls run (left first), and their
return values are compared with `!=`; if different the method returns
`False`, otherwise it falls through to `return True`. -/
def eqCall (a b : EdgeObj) : Except String (EdgeObj × EdgeObj × Bool) :=
  match callLength a with
  | .error m => .error m
  | .ok (a', ra) =>
    match callLength b with
    | .error m => .error m
    | .ok (b', rb) =>
      if ra ≠ rb then .ok (a', b', false) else .ok (a', b', true)

/-! ## `distribute_Y` (operators.py lines 281-294)

`Component` lives in `component.py`, which is not part of the sources
under study; only its use here is.  Modelled from the spec: a component
carries a name, a placement (3-D rotation and translation) and its own
local shape (an opaque payload, untouched by placement changes);
`rotate_by(r)` composes `r` onto the component's rotation.

The rotation `R.from_euler('XYZ', [0, 360 / n_copies, 0], degrees=True)`
is a rotation about the vertical (Y) axis; such rotations form a
commutative group parameterised by the angle.  We represent a Y-rotation
by its cosine/sine pair — irrational for a general angle `360/n`, so
`distribute_Y` takes the pair (`delta`) as a parameter standing for that
rotation; the theorems quantify over it. -/

/-- A rotation about the vertical (Y) axis, represented by the cosine and
sine of its angle.  `R.from_euler('XYZ', [0, θ, 0])` has matrix rows
`(c, 0, s), (0, 1, 0), (-s, 0, c)`. -/
structure RotY where
  c : ℚ
  si : ℚ
deriving DecidableEq, Repr

/-- Apply a Y-rotation to a 3-D vector (`Rotation.apply`). -/
def RotY.apply (r : RotY) (v : ℚ × ℚ × ℚ) : ℚ × ℚ × ℚ :=
  (r.c * v.1 + r.si * v.2.2, v.2.1, -r.si * v.1 + r.c * v.2.2)

/-- Composition of two Y-rotations (angle addition). -/
def RotY.comp (r q : RotY) : RotY :=
  ⟨r.c * q.c - r.si * q.si, r.si * q.c + r.c * q.si⟩

/-- The identity rotation. -/
def RotY.one : RotY := ⟨1, 0⟩

/-- `r^n`: `n` successive applications of the same rotation step. -/
def RotY.pow (r : RotY) : ℕ → RotY
  | 0 => RotY.one
  | n + 1 => r.comp (RotY.pow r n)

/-- Modelled from the spec: a `Component` (from `component.py`, not under
the sources at hand) has a name, a placement — 3-D rotation and
translation — and its own local geometry, opaque here (`shape`). -/
structure Component where
  name : String
  rotation : RotY
  translation : ℚ × ℚ × ℚ
  shape : ℕ
deriving DecidableEq, Repr

/-- Modelled from the spec: `Component.rotate_by(r)` (from `component.py`,
not under the sources at hand) composes the delta rotation onto the
component's placement rotation. -/
def Component.rotate_by (comp : Component) (r : RotY) : Component :=
  { comp with rotation := r.comp comp.rotation }

/-- One iteration of the `distribute_Y` loop body (operators.py lines
284-292): deep-copy the latest copy, rename it, rotate it by the step
rotation and re-express its translation in the rotated frame. -/
def distStep (delta : RotY) (i : ℕ) (prev : Component) : Component :=
  let nc := { prev with name := s!"panel_{i}" }
  let nc := nc.rotate_by delta
  { nc with translation := delta.apply nc.translation }

/-- `distribute_Y` (operators.py lines 281-294): the list
`[component, copy₁, …, copy_{n-1}]` where each copy is built from the
previous one by `distStep`.  `delta` stands for the rotation
`R.from_euler('XYZ', [0, 360 / n_copies, 0], degrees=True)` constructed
afresh (with the same value) in every iteration. -/
def distribute_Y (component : Component) (n_copies : ℕ) (delta : RotY) :
    List Component :=
  (List.range (n_copies - 1)).foldl
    (fun copies i => copies ++ [distStep delta i (copies.getLastD component)])
    [component]

/-! ## `split_half_svg_paths` (svg_holes.py lines 8-53)

`svgpathtools` path geometry is external to the repository, so a path is
embedded by the only observations the function makes of it: its bounding
box, the list of parameter values at which it meets the centre vertical
segment (`p.intersect(inter_segment)`, each record read as
`intersect_t[i][0][0]`), and the bounding box of a cropped piece
(`p.cropped(a, b).bbox()`, of which only entry `[2]` is read).  `pid`
models the identity of the path object. -/

/-- An input SVG path, seen through the observations `split_half_svg_paths`
makes of it. -/
structure SvgPath where
  pid : ℕ
  bbox : ℚ × ℚ × ℚ × ℚ
  interT : List ℚ
  cropYmin : ℚ → ℚ → ℚ

/-- One half produced by the split: either `p.cropped(a, b)` or the
concatenation `Path(*p.cropped(b, 1)._segments, *p.cropped(0, a)._segments)`
(svg_holes.py lines 42-44). -/
inductive HalfPath where
  | crop (pid : ℕ) (a b : ℚ)
  | wrap (pid : ℕ) (b a : ℚ)
deriving DecidableEq, Repr

/-- The source path a half was cut from. -/
def HalfPath.srcPid : HalfPath → ℕ
  | .crop p _ _ => p
  | .wrap p _ _ => p

/-- Junk defaults used with `getD` where the surrounding proofs carry the
bounds. -/
def junkHalf : HalfPath := HalfPath.crop 0 0 0

/-- Junk default `SvgPath`. -/
def junkSvg : SvgPath := ⟨0, (0, 0, 0, 0), [], fun _ _ => 0⟩

/-- The error message of svg_holes.py line 35 (identical for every
offending path). -/
def msgSplit : String :=
  "SplitSVGHole::ERROR::Each Provided Svg path should cross vertical like exactly 2 times"

/-- The per-path loop of `split_half_svg_paths` (lines 30-51), returning
`(left, right)` in input order. -/
def splitLoop (centerX : ℚ) : List SvgPath →
    Except String (List HalfPath × List HalfPath)
  | [] => .ok ([], [])
  | p :: rest =>
    if p.interT.length ≠ 2 then .error msgSplit
    else
      let t0 := p.interT.headD 0
      let t1 := (p.interT.drop 1).headD 0
      let fromT := min t0 t1
      let toT := max t0 t1
      let side1 := HalfPath.crop p.pid fromT toT
      let side2 := HalfPath.wrap p.pid toT fromT
      -- line 47: `if side_1.bbox()[2] > center_x: swap`
      let pair := if p.cropYmin fromT toT > centerX then (side2, side1)
        else (side1, side2)
      match splitLoop centerX rest with
      | .error m => .error m
      | .ok (l, r) => .ok (pair.2 :: l, pair.1 :: r)

/-- `split_half_svg_paths` (svg_holes.py lines 8-53): joint bounding box,
centre vertical line, then the per-path loop.  An empty input crashes in
the bbox aggregation (line 20) before any intersection test. -/
def split_half_svg_paths (paths : List SvgPath) :
    Except String (List HalfPath × List HalfPath) :=
  match paths with
  | [] => .error "IndexError: too many indices for array"
  | p0 :: _ =>
    let xmin := (paths.map fun p => p.bbox.1).foldl min (p0.bbox.1)
    let xmax := (paths.map fun p => p.bbox.2.1).foldl max (p0.bbox.2.1)
    let centerX := (xmin + xmax) / 2
    splitLoop centerX paths

/-! ## `dart` (utility scripts/darts_dev.py lines 9-71)

This routine computes with `sqrt`, `arctan`, `arcsin`, `sin`, `cos` and
`π`, so it is embedded over the real numbers (hence `noncomputable`); the
claims about it are exact statements of ideal arithmetic.  Division by
zero (Lean: `x / 0 = 0`) can occur only outside the hypotheses of the
theorems below. -/

namespace Darts

/-- Euclidean norm of a 2-D real vector (`numpy.linalg.norm`). -/
noncomputable def nrm (v : ℝ × ℝ) : ℝ := Real.sqrt (v.1 ^ 2 + v.2 ^ 2)

/-- Dot product of 2-D real vectors. -/
def dot (u v : ℝ × ℝ) : ℝ := u.1 * v.1 + u.2 * v.2

/-- The (unoriented) angle between two 2-D vectors. -/
noncomputable def angleBetween (u v : ℝ × ℝ) : ℝ :=
  Real.arccos (dot u v / (nrm u * nrm v))

/-- `_rel_to_abs_coords` (darts_dev.py lines 9-19): coordinates relative
to the segment `start → fin` mapped to world coordinates. -/
noncomputable def relToAbs (start fin vrel : ℝ × ℝ) : ℝ × ℝ :=
  let vec := fin - start
  let u := (nrm vec)⁻¹ • vec
  let uPerp : ℝ × ℝ := (-u.2, u.1)
  start + vrel.1 • u + vrel.2 • uPerp

/-- `dart` (darts_dev.py lines 21-71): the five returned points
`[v0, p1, p_tip, p2, new_v1]`. -/
noncomputable def dart (v0 v1 : ℝ × ℝ) (width depth location : ℝ) :
    List (ℝ × ℝ) :=
  let L := nrm (v1 - v0)
  let d1 := L * location
  let d2 := L * (1 - location)
  let depthPerp := Real.sqrt (depth ^ 2 - (width / 2) ^ 2)
  let dartSide := depth
  let deltaL := dartSide * width / (2 * depthPerp)
  let side0 := d1 + deltaL
  let side1 := d2 + deltaL
  let alpha := |Real.arctan (width / 2 / depthPerp)|
  let topAngle := Real.pi - 2 * alpha
  let longSide :=
    Real.sqrt (side0 ^ 2 + side1 ^ 2 - 2 * side0 * side1 * Real.cos topAngle)
  let sin0 := side1 * Real.sin topAngle / longSide
  let sin1 := side0 * Real.sin topAngle / longSide
  let angle0 := Real.arcsin sin0
  let angle1 := Real.arcsin sin1
  let p1 := relToAbs v0 v1 (d1 * Real.cos angle0, d1 * sin0)
  let newV1 := relToAbs v0 v1 (longSide, 0)
  let p2 := relToAbs v0 v1 (longSide - d2 * Real.cos angle1, d2 * sin1)
  let pVec := p2 - p1
  let pPerpRaw : ℝ × ℝ := (-pVec.2, pVec.1)
  let pPerp := (depthPerp / nrm pPerpRaw) • pPerpRaw
  let pTip := p1 + (1 / 2 : ℝ) • pVec - pPerp
  [v0, p1, pTip, p2, newV1]

/-- The linear part of `relToAbs`: the rotation sending `(1,0)` to the
unit vector along `v1 - v0` and `(0,1)` to its perpendicular. -/
noncomputable def rot2 (v0 v1 : ℝ × ℝ) (x : ℝ × ℝ) : ℝ × ℝ :=
  let u := (nrm (v1 - v0))⁻¹ • (v1 - v0)
  x.1 • u + x.2 • (-u.2, u.1)

/-- The purely algebraic closed form of the five points computed by
`dart`: every trigonometric subterm (`cos`/`sin` of the top angle,
`cos ∘ arcsin` of the law-of-sines ratios) replaced by its value.
`dart_eq_alg` proves the replacement correct. -/
noncomputable def dartAlg (v0 v1 : ℝ × ℝ) (w depth loc : ℝ) : List (ℝ × ℝ) :=
  let L := nrm (v1 - v0)
  let d1 := L * loc
  let d2 := L * (1 - loc)
  let dp := Real.sqrt (depth ^ 2 - (w / 2) ^ 2)
  let dl := depth * w / (2 * dp)
  let s0 := d1 + dl
  let s1 := d2 + dl
  let cc := w ^ 2 / (2 * depth ^ 2) - 1
  let sn := w * dp / depth ^ 2
  let E := s0 ^ 2 + s1 ^ 2 - 2 * s0 * s1 * cc
  let ls := Real.sqrt E
  let p1 := relToAbs v0 v1 (d1 * (|s0 - s1 * cc| / ls), d1 * (s1 * sn / ls))
  let nv1 := relToAbs v0 v1 (ls, 0)
  let p2 := relToAbs v0 v1 (ls - d2 * (|s1 - s0 * cc| / ls), d2 * (s0 * sn / ls))
  let pv := p2 - p1
  let pp := (dp / nrm (-pv.2, pv.1)) • ((-pv.2, pv.1) : ℝ × ℝ)
  let tip := p1 + (1 / 2 : ℝ) • pv - pp
  [v0, p1, tip, p2, nv1]

end Darts

/-! # Theorems -/

/-- **C5.** `LogicalEdge.length()` (edge.py lines 39-43) does **not**
return the recomputed Euclidean distance between the current endpoints:
its body assigns the norm to the attribute `self.length` (shadowing the
method) and returns `None`.  On the edge `(0,0)–(3,4)` (distance `5`) the
first call returns `None` while storing the computed value, and a second
call on the same object raises `TypeError` because the attribute now
shadows the method. -/
theorem length_call_returns_none_not_distance :
    callLength ⟨((0 : ℚ), (0 : ℚ)), ((3 : ℚ), (4 : ℚ)), none⟩ =
      .ok (⟨((0 : ℚ), (0 : ℚ)), ((3 : ℚ), (4 : ℚ)), some 25⟩, none) ∧
    callLength ⟨((0 : ℚ), (0 : ℚ)), ((3 : ℚ), (4 : ℚ)), some 25⟩ =
      .error "TypeError: 'numpy.float64' object is not callable" := by
  constructor <;> norm_num [callLength, distSq]

/-- **C6.** `LogicalEdge.__eq__` (edge.py lines 45-64) compares the two
`length()` return values — but `length()` returns `None` for both sides
(see C5), so `self.length() != __o.length()` is `None != None`, i.e.
`False`, and the method falls through to `return True` for *any* two
fresh edges.  Two edges of chord lengths `12` and `15` compare **equal**,
contradicting the claim that they compare unequal. -/
theorem eq_call_true_for_different_chord_lengths :
    eqCall ⟨((0 : ℚ), (0 : ℚ)), ((12 : ℚ), (0 : ℚ)), none⟩
        ⟨((0 : ℚ), (0 : ℚ)), ((15 : ℚ), (0 : ℚ)), none⟩ =
      .ok (⟨((0 : ℚ), (0 : ℚ)), ((12 : ℚ), (0 : ℚ)), some 144⟩,
           ⟨((0 : ℚ), (0 : ℚ)), ((15 : ℚ), (0 : ℚ)), some 225⟩, true) := by
  norm_num [eqCall, callLength, distSq]

/-- **C7.** `_scale_edges_from_start` (operators.py lines 180-190) does
**not** move the vertices along the chord by scaling about the first
endpoint: line 190 recomputes the y-coordinate from the (already scaled)
x-coordinate, `e.end[1] = scale * (e.end[0] - v_start[0]) + v_start[0]`.
Scaling the vertical chained sequence `(0,0)→(0,10)` by `2` (a scale step
reached whenever the translation residual exceeds `1e-3`) collapses the
end vertex to `(0,0)` instead of stretching it to `(0,20)`. -/
theorem scale_edges_from_start_collapses_vertical :
    scaleEdgesFromStart [⟨0, ((0 : ℚ), (0 : ℚ)), ((0 : ℚ), (10 : ℚ))⟩] 2 =
      [⟨0, ((0 : ℚ), (0 : ℚ)), ((0 : ℚ), (0 : ℚ))⟩] := by
  norm_num [scaleEdgesFromStart, scalePt]

/-- **C4.** `project` (operators.py lines 224-264) does **not** translate
the inserted shape rigidly: line 248 builds both components of the shift
from the x-coordinates
(`[base.start[0] - copy.start[0], base.start[0] - copy.start[0]]`).
Projecting the shape `(0,0)→(4,0)` onto the edge `(0,5)→(10,5)` re-binds
the first vertex to `(0,5)` but shifts the second vertex by `(0,0)`
instead of `(0,5)`: the result keeps `(4,0)` where a rigid translation
matching the first vertices would give `(4,5)`. -/
theorem project_shift_is_not_rigid :
    project [⟨99, ((0 : ℚ), (0 : ℚ)), ((4 : ℚ), (0 : ℚ))⟩]
        ⟨[⟨0, ((0 : ℚ), (5 : ℚ)), ((10 : ℚ), (5 : ℚ))⟩], []⟩ 0 10 =
      .ok ⟨[⟨10, ((0 : ℚ), (5 : ℚ)), ((4 : ℚ), (0 : ℚ))⟩,
            ⟨11, ((4 : ℚ), (0 : ℚ)), ((10 : ℚ), (5 : ℚ))⟩], []⟩ := by
  norm_num [project, relabel, insertSeq, pyInsert, junkE]

/-! ## Chained-sequence lemmas -/

theorem chainB_nil {a b : Point} : chainB a [] b = true ↔ a = b := by
  simp [chainB]

theorem chainB_cons {a b : Point} {e : LEdge} {t : List LEdge} :
    chainB a (e :: t) b = true ↔ e.s = a ∧ chainB e.e t b = true := by
  simp [chainB]

theorem chainB_append_of {a m b : Point} {xs ys : List LEdge}
    (h1 : chainB a xs m = true) (h2 : chainB m ys b = true) :
    chainB a (xs ++ ys) b = true := by
  induction xs generalizing a with
  | nil => rw [chainB_nil.mp h1]; simpa using h2
  | cons e t ih =>
    rcases chainB_cons.mp h1 with ⟨hs, hc⟩
    exact chainB_cons.mpr ⟨hs, ih hc⟩

theorem chainB_split {a b : Point} {xs ys : List LEdge}
    (h : chainB a (xs ++ ys) b = true) :
    ∃ m, chainB a xs m = true ∧ chainB m ys b = true := by
  induction xs generalizing a with
  | nil => exact ⟨a, chainB_nil.mpr rfl, h⟩
  | cons e t ih =>
    rcases chainB_cons.mp h with ⟨hs, hc⟩
    rcases ih hc with ⟨m, hm1, hm2⟩
    exact ⟨m, chainB_cons.mpr ⟨hs, hm1⟩, hm2⟩

theorem chainB_head {a b : Point} {es : List LEdge} (hne : es ≠ [])
    (h : chainB a es b = true) : (es.headD junkE).s = a := by
  cases es with
  | nil => exact absurd rfl hne
  | cons e t => simpa using (chainB_cons.mp h).1

theorem chainB_last {a b : Point} {es : List LEdge}
    (h : chainB a es b = true) (hne : es ≠ []) : (es.getLastD junkE).e = b := by
  induction es generalizing a with
  | nil => exact absurd rfl hne
  | cons e t ih =>
    rcases chainB_cons.mp h with ⟨_, hc⟩
    cases t with
    | nil => simpa [chainB] using hc
    | cons f u =>
      have h2 := ih hc (by simp)
      obtain ⟨y, hy⟩ := Option.isSome_iff_exists.mp
        (List.getLast?_isSome.mpr (show (f :: u) ≠ [] by simp))
      rw [List.getLastD_cons, List.getLastD_eq_getLast?, hy]
      rwa [List.getLastD_eq_getLast?, hy] at h2

theorem chainB_vecSum {a b : Point} {es : List LEdge}
    (h : chainB a es b = true) : vecSum es = b - a := by
  induction es generalizing a with
  | nil => rw [chainB_nil.mp h]; simp [vecSum]
  | cons e t ih =>
    rcases chainB_cons.mp h with ⟨hs, hc⟩
    have ht := ih hc
    show (e.e - e.s) + vecSum t = b - a
    rw [ht, hs]
    abel

theorem closedChainB_of_chainB {x : Point} {es : List LEdge} (hne : es ≠ [])
    (h : chainB x es x = true) : closedChainB es = true := by
  cases es with
  | nil => exact absurd rfl hne
  | cons e t =>
    have hs := (chainB_cons.mp h).1
    show chainB e.s (e :: t) e.s = true
    rwa [hs]

theorem closedChainB_chainB {es : List LEdge} (h : closedChainB es = true)
    (hne : es ≠ []) : chainB (es.headD junkE).s es ((es.headD junkE).s) = true := by
  cases es with
  | nil => exact absurd rfl hne
  | cons e t => simpa [closedChainB] using h

theorem chainB_relabel {es : List LEdge} {f : ℕ} {a b : Point} :
    chainB a (relabel es f) b = chainB a es b := by
  induction es generalizing a f with
  | nil => rfl
  | cons e t ih => simp [relabel, chainB, ih]

theorem chainB_mapPt (g : Point → Point) {a b : Point} {es : List LEdge}
    (h : chainB a es b = true) :
    chainB (g a) (es.map fun e => ⟨e.eid, g e.s, g e.e⟩) (g b) = true := by
  induction es generalizing a with
  | nil => simp_all [chainB]
  | cons e t ih =>
    rcases chainB_cons.mp h with ⟨hs, hc⟩
    exact chainB_cons.mpr ⟨by simp only [hs], ih hc⟩

theorem chainB_shiftSeq {sh : Point} {a b : Point} {es : List LEdge}
    (h : chainB a es b = true) :
    chainB (a + sh) (shiftSeq es sh) (b + sh) = true := by
  simpa [shiftSeq] using chainB_mapPt (fun p => p + sh) h

theorem chainB_flipSeq {a b : Point} {es : List LEdge}
    (h : chainB a es b = true) : chainB b (flipSeq es) a = true := by
  induction es generalizing a with
  | nil => rw [chainB_nil.mp h] at *; simpa [flipSeq] using chainB_nil.mpr rfl
  | cons e t ih =>
    rcases chainB_cons.mp h with ⟨hs, hc⟩
    have h2 := ih hc
    have : flipSeq (e :: t) = flipSeq t ++ [flipE e] := by
      simp [flipSeq]
    rw [this]
    refine chainB_append_of h2 ?_
    exact chainB_cons.mpr ⟨rfl, by simpa [flipE, chainB] using hs⟩

theorem chainB_scaleSeq {a b : Point} {es : List LEdge} {k : ℚ}
    (h : chainB a es b = true) (hne : es ≠ []) :
    chainB a (scaleEdgesFromStart es k) (scalePt a k b) = true := by
  cases es with
  | nil => exact absurd rfl hne
  | cons e0 rest =>
    rcases chainB_cons.mp h with ⟨hs, hc⟩
    subst hs
    exact chainB_cons.mpr ⟨rfl, chainB_mapPt (scalePt e0.s k) hc⟩

theorem relabel_length (es : List LEdge) (f : ℕ) :
    (relabel es f).length = es.length := by
  induction es generalizing f with
  | nil => rfl
  | cons e t ih => simp [relabel, ih]

theorem flipSeq_length (es : List LEdge) : (flipSeq es).length = es.length := by
  simp [flipSeq]

theorem shiftSeq_length (es : List LEdge) (sh : Point) :
    (shiftSeq es sh).length = es.length := by simp [shiftSeq]

theorem scaleSeq_length (es : List LEdge) (k : ℚ) :
    (scaleEdgesFromStart es k).length = es.length := by
  cases es <;> simp [scaleEdgesFromStart]

theorem edgeIds_relabel (es : List LEdge) (f : ℕ) {x : ℕ}
    (hx : x ∈ edgeIds (relabel es f)) : f ≤ x ∧ x < f + es.length := by
  induction es generalizing f with
  | nil => simp [relabel, edgeIds] at hx
  | cons e t ih =>
    simp only [relabel, edgeIds, List.map_cons, List.mem_cons] at hx
    rcases hx with rfl | hx
    · simp
    · have h2 := ih (f + 1) hx
      simp only [List.length_cons]
      omega

theorem edgeIds_flipSeq (es : List LEdge) :
    edgeIds (flipSeq es) = (edgeIds es).reverse := by
  simp [flipSeq, edgeIds, flipE, List.map_reverse]

theorem edgeIds_shiftSeq (es : List LEdge) (sh : Point) :
    edgeIds (shiftSeq es sh) = edgeIds es := by
  simp [shiftSeq, edgeIds]

theorem edgeIds_scaleSeq (es : List LEdge) (k : ℚ) :
    edgeIds (scaleEdgesFromStart es k) = edgeIds es := by
  cases es <;> simp [scaleEdgesFromStart, edgeIds]

theorem pyInsert_take (l : List LEdge) (i : ℕ) (x : LEdge) :
    (pyInsert l i x).take (i + 1) = l.take i ++ [x] := by
  rcases le_or_lt i l.length with hle | hlt
  · have hlen : (l.take i).length = i := by simp; omega
    rw [pyInsert, List.take_append_eq_append_take, hlen,
      List.take_of_length_le (by omega : (l.take i).length ≤ i + 1)]
    have h1 : i + 1 - i = 1 := by omega
    rw [h1]
    simp
  · have ht : l.take i = l := List.take_of_length_le (by omega)
    have hd : l.drop i = [] := List.drop_eq_nil_of_le (by omega)
    rw [pyInsert, ht, hd]
    rw [List.take_of_length_le (by simp; omega)]

theorem pyInsert_drop (l : List LEdge) (i : ℕ) (x : LEdge) :
    (pyInsert l i x).drop (i + 1) = l.drop i := by
  rcases le_or_lt i l.length with hle | hlt
  · have hlen : (l.take i).length = i := by simp; omega
    rw [pyInsert, List.drop_append_eq_append_drop, hlen,
      List.drop_eq_nil_of_le (by omega : (l.take i).length ≤ i + 1)]
    have h1 : i + 1 - i = 1 := by omega
    rw [h1]
    simp
  · have ht : l.take i = l := List.take_of_length_le (by omega)
    have hd : l.drop i = [] := List.drop_eq_nil_of_le (by omega)
    rw [pyInsert, ht, hd]
    exact List.drop_eq_nil_of_le (by simp; omega)

theorem insertSeq_eq (r : List LEdge) (l : List LEdge) (i : ℕ) :
    insertSeq l i r = l.take i ++ r ++ l.drop i := by
  induction r generalizing l i with
  | nil => simp [insertSeq]
  | cons x xs ih =>
    rw [insertSeq, ih, pyInsert_take, pyInsert_drop]
    simp

theorem finish_spec {cs5 : List LEdge} {a5 b5 : Point} (e1 e2 : LEdge)
    (n1 n2 : ℕ) (hch : chainB a5 cs5 b5 = true) (hne : cs5 ≠ []) :
    chainB e1.s
      (⟨n1, e1.s, (cs5.headD junkE).s⟩ :: cs5 ++
        [⟨n2, (cs5.getLastD junkE).e, e2.e⟩]) e2.e = true := by
  have hh := chainB_head hne hch
  have hl := chainB_last hch hne
  refine chainB_cons.mpr ⟨rfl, ?_⟩
  show chainB (cs5.headD junkE).s (cs5 ++ [⟨n2, (cs5.getLastD junkE).e, e2.e⟩]) e2.e = true
  rw [hh, hl]
  exact chainB_append_of hch (chainB_cons.mpr ⟨rfl, chainB_nil.mpr rfl⟩)


theorem finish_full {cs5 : List LEdge} {a5 b5 : Point} (e1 e2 : LEdge)
    (tlen fresh : ℕ) (hch : chainB a5 cs5 b5 = true) (hne : cs5 ≠ [])
    (hlen : cs5.length = tlen) (hids : ∀ x ∈ edgeIds cs5, fresh ≤ x) :
    chainB e1.s (⟨fresh + tlen, e1.s, (cs5.headD junkE).s⟩ :: cs5 ++
        [⟨fresh + tlen + 1, (cs5.getLastD junkE).e, e2.e⟩]) e2.e = true ∧
      (⟨fresh + tlen, e1.s, (cs5.headD junkE).s⟩ :: cs5 ++
        [⟨fresh + tlen + 1, (cs5.getLastD junkE).e, e2.e⟩] : List LEdge).length = tlen + 2 ∧
      ∀ x ∈ edgeIds (⟨fresh + tlen, e1.s, (cs5.headD junkE).s⟩ :: cs5 ++
        [⟨fresh + tlen + 1, (cs5.getLastD junkE).e, e2.e⟩]), fresh ≤ x := by
  refine ⟨finish_spec e1 e2 _ _ hch hne, by simp [hlen], ?_⟩
  intro x hx
  simp only [edgeIds, List.map_cons, List.map_append, List.mem_cons,
    List.mem_append, List.mem_singleton] at hx
  rcases hx with (rfl | hx) | hx2
  · omega
  · exact hids x hx
  · rcases hx2 with rfl | h0
    · omega
    · simp at h0

theorem mkCornerShape_ok {target : List LEdge} {panel : Panel} {eid1 eid2 fresh : ℕ}
    {fitT fitS : FitResult} {scale : ℚ} {run : List LEdge} {e1 e2 : LEdge}
    (h1 : panel.edges[eid1]? = some e1) (h2 : panel.edges[eid2]? = some e2)
    (hch : ∃ a b, chainB a target b = true) (hne : target ≠ [])
    (hok : mkCornerShape target panel eid1 eid2 fitT fitS scale fresh = .ok run) :
    chainB e1.s run e2.e = true ∧ run.length = target.length + 2 ∧
      ∀ x ∈ edgeIds run, fresh ≤ x := by
  obtain ⟨a, b, hab⟩ := hch
  have hEmp : target.isEmpty = false := by
    cases target with
    | nil => exact absurd rfl hne
    | cons _ _ => rfl
  rw [mkCornerShape, h1, h2] at hok
  simp only [hEmp, Bool.false_eq_true, if_false] at hok
  -- chain facts for the deepcopy cs0
  have hcs0 : chainB a (relabel target fresh) b = true := by
    rw [chainB_relabel]; exact hab
  have hcs0ne : relabel target fresh ≠ [] := by
    intro hnil
    have := relabel_length target fresh
    rw [hnil] at this
    cases target with
    | nil => exact hne rfl
    | cons _ _ => simp at this
  have hcs0len : (relabel target fresh).length = target.length :=
    relabel_length target fresh
  have hcs0ids : ∀ x ∈ edgeIds (relabel target fresh), fresh ≤ x :=
    fun x hx => (edgeIds_relabel target fresh hx).1
  -- cs1 : orientation-normalised
  set cs0 := relabel target fresh with hcs0def
  set cs1 := if (cs0.headD junkE).s.2 > (cs0.getLastD junkE).e.2
    then flipSeq cs0 else cs0 with hcs1def
  have hcs1 : ∃ a1 b1, chainB a1 cs1 b1 = true := by
    rw [hcs1def]; split
    · exact ⟨b, a, chainB_flipSeq hcs0⟩
    · exact ⟨a, b, hcs0⟩
  have hcs1len : cs1.length = target.length := by
    rw [hcs1def]; split
    · rw [flipSeq_length]; exact hcs0len
    · exact hcs0len
  have hcs1ne : cs1 ≠ [] := by
    intro hnil
    rw [hnil] at hcs1len
    cases target with
    | nil => exact hne rfl
    | cons _ _ => simp at hcs1len
  have hcs1ids : ∀ x ∈ edgeIds cs1, fresh ≤ x := by
    rw [hcs1def]; split
    · intro x hx
      rw [edgeIds_flipSeq, List.mem_reverse] at hx
      exact hcs0ids x hx
    · exact hcs0ids
  by_cases hts : fitT.success = false
  · rw [if_pos hts] at hok
    exact absurd hok (by simp)
  · rw [if_neg hts] at hok
    split at hok
    · -- secondary scale branch
      split at hok
      · exact absurd hok (by simp)
      · -- the rescaled shape
        obtain ⟨a1, b1, hc1⟩ := hcs1
        generalize (fitS.x.1 •
          ((cs1.headD junkE).s + fitT.x +
              fitS.x.1 • ((cs1.headD junkE).s + fitT.x - ((cs1.getLastD junkE).e + fitT.x)) -
            ((cs1.getLastD junkE).e + fitT.x +
              fitS.x.2 •
                ((cs1.getLastD junkE).e + fitT.x -
                  ((cs1.headD junkE).s + fitT.x +
                    fitS.x.1 •
                      ((cs1.headD junkE).s + fitT.x - ((cs1.getLastD junkE).e + fitT.x))))))
          : Point) = V at hok
        have hc3 : chainB (a1 + fitT.x + V) (shiftSeq (shiftSeq cs1 fitT.x) V)
            (b1 + fitT.x + V) = true := chainB_shiftSeq (chainB_shiftSeq hc1)
        have hc3ne : shiftSeq (shiftSeq cs1 fitT.x) V ≠ [] := by
          intro hnil
          have := shiftSeq_length (shiftSeq cs1 fitT.x) V
          rw [hnil, shiftSeq_length] at this
          exact hcs1ne (List.length_eq_zero.mp this.symm)
        have hX : chainB (a1 + fitT.x + V)
            (scaleEdgesFromStart (shiftSeq (shiftSeq cs1 fitT.x) V) scale)
            (scalePt (a1 + fitT.x + V) scale (b1 + fitT.x + V)) = true :=
          chainB_scaleSeq hc3 hc3ne
        have hXne : scaleEdgesFromStart (shiftSeq (shiftSeq cs1 fitT.x) V) scale ≠ [] := by
          intro hnil
          have := scaleSeq_length (shiftSeq (shiftSeq cs1 fitT.x) V) scale
          rw [hnil] at this
          exact hc3ne (List.length_eq_zero.mp this.symm)
        have hXlen : (scaleEdgesFromStart (shiftSeq (shiftSeq cs1 fitT.x) V) scale).length
            = target.length := by
          rw [scaleSeq_length, shiftSeq_length, shiftSeq_length]; exact hcs1len
        have hXids : ∀ x ∈ edgeIds (scaleEdgesFromStart (shiftSeq (shiftSeq cs1 fitT.x) V) scale),
            fresh ≤ x := by
          rw [edgeIds_scaleSeq, edgeIds_shiftSeq, edgeIds_shiftSeq]; exact hcs1ids
        rcases hsw : decide (e1.s.2 > e2.e.2) with _ | _ <;>
          simp only [hsw, Bool.false_eq_true, if_false, if_true] at hok <;>
          rw [← (Except.ok.injEq _ _).mp hok]
        · rw [← hXlen]
          exact finish_full e1 e2 _ fresh hX hXne rfl hXids
        · have hF := chainB_flipSeq hX
          have hFne : flipSeq (scaleEdgesFromStart (shiftSeq (shiftSeq cs1 fitT.x) V) scale) ≠ [] := by
            intro hnil
            have := flipSeq_length (scaleEdgesFromStart (shiftSeq (shiftSeq cs1 fitT.x) V) scale)
            rw [hnil] at this
            exact hXne (List.length_eq_zero.mp this.symm)
          have hFlen : (flipSeq (scaleEdgesFromStart (shiftSeq (shiftSeq cs1 fitT.x) V) scale)).length
              = target.length := by
            rw [flipSeq_length]; exact hXlen
          have hFids : ∀ x ∈ edgeIds (flipSeq (scaleEdgesFromStart (shiftSeq (shiftSeq cs1 fitT.x) V) scale)),
              fresh ≤ x := by
            intro x hx
            rw [edgeIds_flipSeq, List.mem_reverse] at hx
            exact hXids x hx
          rw [← hFlen]
          exact finish_full e1 e2 _ fresh hF hFne rfl hFids
    · -- no-scale branch
      obtain ⟨a1, b1, hc1⟩ := hcs1
      have hX : chainB (a1 + fitT.x) (shiftSeq cs1 fitT.x) (b1 + fitT.x) = true :=
        chainB_shiftSeq hc1
      have hXne : shiftSeq cs1 fitT.x ≠ [] := by
        intro hnil
        have := shiftSeq_length cs1 fitT.x
        rw [hnil] at this
        exact hcs1ne (List.length_eq_zero.mp this.symm)
      have hXlen : (shiftSeq cs1 fitT.x).length = target.length := by
        rw [shiftSeq_length]; exact hcs1len
      have hXids : ∀ x ∈ edgeIds (shiftSeq cs1 fitT.x), fresh ≤ x := by
        rw [edgeIds_shiftSeq]; exact hcs1ids
      rcases hsw : decide (e1.s.2 > e2.e.2) with _ | _ <;>
        simp only [hsw, Bool.false_eq_true, if_false, if_true] at hok <;>
        rw [← (Except.ok.injEq _ _).mp hok] <;>
        [skip; skip]
      · rw [← hXlen]
        exact finish_full e1 e2 _ fresh hX hXne rfl hXids
      · have hF : chainB (b1 + fitT.x) (flipSeq (shiftSeq cs1 fitT.x)) (a1 + fitT.x) = true :=
          chainB_flipSeq hX
        have hFne : flipSeq (shiftSeq cs1 fitT.x) ≠ [] := by
          intro hnil
          have := flipSeq_length (shiftSeq cs1 fitT.x)
          rw [hnil] at this
          exact hXne (List.length_eq_zero.mp this.symm)
        have hFlen : (flipSeq (shiftSeq cs1 fitT.x)).length = target.length := by
          rw [flipSeq_length]; exact hXlen
        have hFids : ∀ x ∈ edgeIds (flipSeq (shiftSeq cs1 fitT.x)), fresh ≤ x := by
          intro x hx
          rw [edgeIds_flipSeq, List.mem_reverse] at hx
          exact hXids x hx
        rw [← hFlen]
        exact finish_full e1 e2 _ fresh hF hFne rfl hFids

theorem erase_two_adjacent (L : List LEdge) (i : ℕ) (hi : i + 1 < L.length) :
    (L.eraseIdx (i + 1)).eraseIdx i = L.take i ++ L.drop (i + 2) := by
  rw [List.eraseIdx_eq_take_drop_succ, List.eraseIdx_eq_take_drop_succ]
  have hlen : (L.take (i + 1)).length = i + 1 := by simp; omega
  rw [List.take_append_eq_append_take, List.drop_append_eq_append_drop, hlen]
  rw [List.take_take, min_eq_left (by omega)]
  have h0 : i - (i + 1) = 0 := by omega
  have h1 : i + 1 - (i + 1) = 0 := by omega
  rw [h0, h1, List.drop_eq_nil_of_le (le_of_eq hlen)]
  simp

theorem splice_mid {L run : List LEdge} {i : ℕ} {e1 e2 : LEdge}
    (hi : i + 1 < L.length) (hloop : closedChainB L = true)
    (hE1 : L[i]? = some e1) (hE2 : L[i + 1]? = some e2)
    (hrun : chainB e1.s run e2.e = true) (hrne : run ≠ []) :
    closedChainB (L.take i ++ run ++ L.drop (i + 2)) = true ∧
      (L.take i ++ run ++ L.drop (i + 2)).length = L.length - 2 + run.length := by
  have hne : L ≠ [] := by
    intro h; rw [h] at hi; simp at hi
  have hd1 : L.drop i = e1 :: L.drop (i + 1) := by
    rw [List.drop_eq_getElem_cons (by omega)]
    congr
    exact (List.getElem?_eq_some.mp hE1).2.symm ▸ rfl
  have hd2 : L.drop (i + 1) = e2 :: L.drop (i + 2) := by
    rw [List.drop_eq_getElem_cons (by omega)]
    congr
    exact (List.getElem?_eq_some.mp hE2).2.symm ▸ rfl
  have hL : L = L.take i ++ (e1 :: e2 :: L.drop (i + 2)) := by
    conv_lhs => rw [← List.take_append_drop i L]
    rw [hd1, hd2]
  have hch := closedChainB_chainB hloop hne
  set x := (L.headD junkE).s with hx
  rw [hL] at hch
  obtain ⟨m, hA, hrest⟩ := chainB_split hch
  rcases chainB_cons.mp hrest with ⟨hm, hrest2⟩
  rcases chainB_cons.mp hrest2 with ⟨hs2, hB⟩
  have hrun2 : chainB m run e2.e = true := hm ▸ hrun
  have hmid : chainB m (run ++ L.drop (i + 2)) x = true :=
    chainB_append_of hrun2 hB
  have hchain : chainB x (L.take i ++ run ++ L.drop (i + 2)) x = true := by
    rw [List.append_assoc]
    exact chainB_append_of hA hmid
  have hsne : L.take i ++ run ++ L.drop (i + 2) ≠ [] := by
    simp [hrne]
  refine ⟨closedChainB_of_chainB hsne hchain, ?_⟩
  simp only [List.length_append, List.length_take, List.length_drop]
  omega

theorem splice_wrap {L run : List LEdge} {e1 e2 : LEdge}
    (hn : 2 ≤ L.length) (hloop : closedChainB L = true)
    (hE1 : L[L.length - 1]? = some e1) (hE2 : L[0]? = some e2)
    (hrun : chainB e1.s run e2.e = true) (hrne : run ≠ []) :
    closedChainB (L.tail.dropLast ++ run) = true ∧
      (L.tail.dropLast ++ run).length = L.length - 2 + run.length := by
  cases L with
  | nil => simp at hn
  | cons h t =>
    have hh : h = e2 := by simpa using hE2
    subst hh
    have htne : t ≠ [] := by
      intro hnil
      rw [hnil] at hn
      simp at hn
    have hgl : t.getLast htne = e1 := by
      have h1 : (h :: t).getLast? = some e1 := by
        rw [List.getLast?_eq_getElem?]
        simpa using hE1
      have h2 : (h :: t).getLast (by simp) = e1 :=
        (List.getLast?_eq_getLast _ _ ▸ h1 : _) |> Option.some.inj
      rw [← h2, List.getLast_cons htne]
    have htdec : t = t.dropLast ++ [e1] := by
      conv_lhs => rw [← List.dropLast_append_getLast htne]
      rw [hgl]
    have hch : chainB h.s (h :: t) h.s = true := hloop
    rcases chainB_cons.mp hch with ⟨_, hrest⟩
    rw [htdec] at hrest
    obtain ⟨m, hM, hlast⟩ := chainB_split hrest
    rcases chainB_cons.mp hlast with ⟨hm, hend⟩
    have hrun2 : chainB m run h.e = true := hm ▸ hrun
    have hchain : chainB h.e ((h :: t).tail.dropLast ++ run) h.e = true := by
      show chainB h.e (t.dropLast ++ run) h.e = true
      exact chainB_append_of hM hrun2
    have hsne : (h :: t).tail.dropLast ++ run ≠ [] := by simp [hrne]
    refine ⟨closedChainB_of_chainB hsne hchain, ?_⟩
    simp only [List.tail_cons, List.length_append, List.length_dropLast,
      List.length_cons]
    omega

/-- **C1.** For a panel whose boundary is a closed chained loop and a
chained nonempty `target_shape`, if `cut_corner` on an adjacent corner
pair (`eid2 = eid1 + 1` cyclically) returns successfully — in particular
both fits converged — then the new boundary is again a closed chained
loop, its directed edge vectors sum to the zero vector, and its edge
count is the original count minus 2 plus the inserted run's count (the
fitted shape's edges plus its two connector edges). -/
theorem cut_corner_preserves_closed_loop
    {target : List LEdge} {panel : Panel} {eid1 eid2 fresh : ℕ}
    {fitT fitS : FitResult} {scale : ℚ} {panel2 : Panel}
    (hn : 2 ≤ panel.edges.length)
    (hloop : closedChainB panel.edges = true)
    (hch : chainedSeq target = true) (hne : target ≠ [])
    (h1 : eid1 < panel.edges.length)
    (h2 : eid2 = (eid1 + 1) % panel.edges.length)
    (hok : cut_corner target panel eid1 eid2 fitT fitS scale fresh = .ok panel2) :
    closedChainB panel2.edges = true ∧
      vecSum panel2.edges = 0 ∧
      panel2.edges.length = panel.edges.length - 2 + (target.length + 2) := by
  have h2lt : eid2 < panel.edges.length := by
    rw [h2]; exact Nat.mod_lt _ (by omega)
  have he1 : panel.edges[eid1]? = some (panel.edges.get ⟨eid1, h1⟩) :=
    List.getElem?_eq_getElem h1
  have he2 : panel.edges[eid2]? = some (panel.edges.get ⟨eid2, h2lt⟩) :=
    List.getElem?_eq_getElem h2lt
  rw [cut_corner] at hok
  cases hmk : mkCornerShape target panel eid1 eid2 fitT fitS scale fresh with
  | error m => rw [hmk] at hok; exact absurd hok (by simp)
  | ok run =>
  rw [hmk, he1, he2] at hok
  obtain ⟨hrunch, hrunlen, -⟩ :=
    mkCornerShape_ok he1 he2 ⟨_, _, hch⟩ hne hmk
  have hrne : run ≠ [] := by
    intro hnil
    rw [hnil] at hrunlen
    simp at hrunlen
  simp only [Except.ok.injEq] at hok
  subst hok
  rcases Nat.lt_or_ge (eid1 + 1) panel.edges.length with hlt | hge
  · -- adjacent pair, no wraparound
    have h2eq : eid2 = eid1 + 1 := by
      rw [h2, Nat.mod_eq_of_lt hlt]
    subst h2eq
    have hbr : (if eid1 + 1 > eid1 then
        (panel.edges.eraseIdx (eid1 + 1)).eraseIdx eid1
        else (panel.edges.eraseIdx eid1).eraseIdx (eid1 + 1))
        = panel.edges.take eid1 ++ panel.edges.drop (eid1 + 2) := by
      rw [if_pos (by omega)]
      exact erase_two_adjacent panel.edges eid1 hlt
    show closedChainB (insertSeq _ eid1 run) = true ∧
      vecSum (insertSeq _ eid1 run) = 0 ∧
      (insertSeq _ eid1 run).length = panel.edges.length - 2 + (target.length + 2)
    rw [hbr, insertSeq_eq]
    have hta : (panel.edges.take eid1 ++ panel.edges.drop (eid1 + 2)).take eid1
        = panel.edges.take eid1 := by
      rw [List.take_append_of_le_length (by simp only [List.length_take, List.length_drop, List.length_dropLast, List.length_tail]; omega), List.take_take, min_self]
    have hdr : (panel.edges.take eid1 ++ panel.edges.drop (eid1 + 2)).drop eid1
        = panel.edges.drop (eid1 + 2) := by
      rw [List.drop_append_of_le_length (by simp only [List.length_take, List.length_drop, List.length_dropLast, List.length_tail]; omega),
        List.drop_eq_nil_of_le (by simp only [List.length_take, List.length_drop, List.length_dropLast, List.length_tail]; omega), List.nil_append]
    rw [hta, hdr]
    obtain ⟨hclosed, hlen⟩ := splice_mid hlt hloop he1 he2 hrunch hrne
    refine ⟨hclosed, ?_, by rw [hlen, hrunlen]⟩
    have hsne : panel.edges.take eid1 ++ run ++ panel.edges.drop (eid1 + 2) ≠ [] := by
      simp [hrne]
    have hx := closedChainB_chainB hclosed hsne
    have hv := chainB_vecSum hx
    rw [sub_self] at hv
    exact hv
  · -- wraparound corner: eid1 is the last edge, eid2 the first
    have h1eq : eid1 + 1 = panel.edges.length := by omega
    have h2eq : eid2 = 0 := by
      rw [h2, h1eq, Nat.mod_self]
    subst h2eq
    have hbr : (if 0 > eid1 then
        (panel.edges.eraseIdx 0).eraseIdx eid1
        else (panel.edges.eraseIdx eid1).eraseIdx 0)
        = panel.edges.tail.dropLast := by
      rw [if_neg (by omega), List.eraseIdx_zero]
      have hdl : panel.edges.eraseIdx eid1 = panel.edges.dropLast := by
        rw [List.eraseIdx_eq_take_drop_succ, h1eq, List.drop_length,
          List.append_nil, List.dropLast_eq_take]
        congr 1
        omega
      rw [hdl]
      exact List.tail_dropLast panel.edges
    show closedChainB (insertSeq _ eid1 run) = true ∧
      vecSum (insertSeq _ eid1 run) = 0 ∧
      (insertSeq _ eid1 run).length = panel.edges.length - 2 + (target.length + 2)
    rw [hbr, insertSeq_eq]
    have hta : (panel.edges.tail.dropLast).take eid1 = panel.edges.tail.dropLast :=
      List.take_of_length_le (by simp only [List.length_take, List.length_drop, List.length_dropLast, List.length_tail]; omega)
    have hdr : (panel.edges.tail.dropLast).drop eid1 = [] :=
      List.drop_eq_nil_of_le (by simp only [List.length_take, List.length_drop, List.length_dropLast, List.length_tail]; omega)
    rw [hta, hdr, List.append_nil]
    have he1w : panel.edges[panel.edges.length - 1]? =
        some (panel.edges.get ⟨eid1, h1⟩) := by
      have : panel.edges.length - 1 = eid1 := by omega
      rw [this]
      exact he1
    obtain ⟨hclosed, hlen⟩ := splice_wrap hn hloop he1w he2 hrunch hrne
    refine ⟨hclosed, ?_, by rw [hlen, hrunlen]⟩
    have hsne : panel.edges.tail.dropLast ++ run ≠ [] := by
      simp [hrne]
    have hx := closedChainB_chainB hclosed hsne
    have hv := chainB_vecSum hx
    rw [sub_self] at hv
    exact hv

/-- **C2.** `cut_corner` raises (returns the error, propagated to the
caller — never retried or swallowed) whenever one of its two
minimizations reports non-convergence: if the translation fit fails it
raises the translation fitting error (operators.py line 97), and if the
translation fit converged, the residual exceeded `1e-3` and the secondary
scale fit fails, it raises the scaling fitting error (line 112). -/
theorem cut_corner_error_propagation
    {target : List LEdge} {panel : Panel} {eid1 eid2 fresh : ℕ}
    {fitT fitS : FitResult} {scale : ℚ}
    (h1 : eid1 < panel.edges.length) (h2 : eid2 < panel.edges.length)
    (hne : target ≠ []) :
    (fitT.success = false →
      cut_corner target panel eid1 eid2 fitT fitS scale fresh =
        .error msgTranslation) ∧
    (fitT.success = true → |fitT.fval| > 1 / 1000 → fitS.success = false →
      cut_corner target panel eid1 eid2 fitT fitS scale fresh =
        .error msgScaling) := by
  have he1 := List.getElem?_eq_getElem h1
  have he2 := List.getElem?_eq_getElem h2
  have hEmp : target.isEmpty = false := by
    cases target with
    | nil => exact absurd rfl hne
    | cons _ _ => rfl
  constructor
  · intro hf
    have hmk : mkCornerShape target panel eid1 eid2 fitT fitS scale fresh =
        .error msgTranslation := by
      rw [mkCornerShape, he1, he2]
      simp only [hEmp, Bool.false_eq_true, if_false]
      rw [if_pos hf]
    rw [cut_corner, hmk]
  · intro ht hval hs
    have hmk : mkCornerShape target panel eid1 eid2 fitT fitS scale fresh =
        .error msgScaling := by
      rw [mkCornerShape, he1, he2]
      simp only [hEmp, Bool.false_eq_true, if_false]
      rw [if_neg (by rw [ht]; simp), if_pos hval, if_pos hs]
    rw [cut_corner, hmk]

/-- **C3.** After a successful `cut_corner` (with distinct edge object
ids, `fresh` larger than every existing id), no interface of the updated
panel references either removed edge; if at least one interface
referenced a removed edge, exactly those interfaces are discarded and one
new interface per edge of the inserted run is appended, all other
interfaces kept unchanged in order; if none did, the interface list is
unchanged. -/
theorem cut_corner_interfaces
    {target : List LEdge} {panel : Panel} {eid1 eid2 fresh : ℕ}
    {fitT fitS : FitResult} {scale : ℚ} {panel2 : Panel} {run : List LEdge}
    (h1 : eid1 < panel.edges.length) (h2 : eid2 < panel.edges.length)
    (hne : target ≠ []) (hch : chainedSeq target = true)
    (hfresh : ∀ e ∈ panel.edges, e.eid < fresh)
    (hrun : mkCornerShape target panel eid1 eid2 fitT fitS scale fresh = .ok run)
    (hok : cut_corner target panel eid1 eid2 fitT fitS scale fresh = .ok panel2) :
    (∀ it ∈ panel2.interfaces,
      it.edgeId ≠ (panel.edges.get ⟨eid1, h1⟩).eid ∧
        it.edgeId ≠ (panel.edges.get ⟨eid2, h2⟩).eid) ∧
    ((∃ it ∈ panel.interfaces,
        it.edgeId = (panel.edges.get ⟨eid1, h1⟩).eid ∨
          it.edgeId = (panel.edges.get ⟨eid2, h2⟩).eid) →
      panel2.interfaces =
        panel.interfaces.filter
          (fun it => !(it.edgeId == (panel.edges.get ⟨eid1, h1⟩).eid ||
            it.edgeId == (panel.edges.get ⟨eid2, h2⟩).eid)) ++
          run.map (fun e => (⟨e.eid⟩ : Interface))) ∧
    ((¬ ∃ it ∈ panel.interfaces,
        it.edgeId = (panel.edges.get ⟨eid1, h1⟩).eid ∨
          it.edgeId = (panel.edges.get ⟨eid2, h2⟩).eid) →
      panel2.interfaces = panel.interfaces) ∧
    run.length = target.length + 2 := by
  have he1 : panel.edges[eid1]? = some (panel.edges.get ⟨eid1, h1⟩) :=
    List.getElem?_eq_getElem h1
  have he2 : panel.edges[eid2]? = some (panel.edges.get ⟨eid2, h2⟩) :=
    List.getElem?_eq_getElem h2
  obtain ⟨-, hrunlen, hids⟩ := mkCornerShape_ok he1 he2 ⟨_, _, hch⟩ hne hrun
  rw [cut_corner, hrun, he1, he2] at hok
  simp only [Except.ok.injEq] at hok
  subst hok
  have hAnyIff : (panel.interfaces.any
      (fun it => it.edgeId == (panel.edges.get ⟨eid1, h1⟩).eid ||
        it.edgeId == (panel.edges.get ⟨eid2, h2⟩).eid) = true) ↔
      (∃ it ∈ panel.interfaces,
        it.edgeId = (panel.edges.get ⟨eid1, h1⟩).eid ∨
          it.edgeId = (panel.edges.get ⟨eid2, h2⟩).eid) := by
    simp [List.any_eq_true]
  by_cases hAny : panel.interfaces.any
      (fun it => it.edgeId == (panel.edges.get ⟨eid1, h1⟩).eid ||
        it.edgeId == (panel.edges.get ⟨eid2, h2⟩).eid) = true
  · simp only [hAny, if_true]
    refine ⟨?_, by intro hx; trivial, fun hno => absurd (hAnyIff.mp hAny) hno, hrunlen⟩
    intro it hit
    rcases List.mem_append.mp hit with hkeep | hnew
    · have := List.of_mem_filter hkeep
      simp only [Bool.not_eq_true', Bool.or_eq_false_iff, beq_eq_false_iff_ne,
        ne_eq] at this
      exact this
    · rcases List.mem_map.mp hnew with ⟨e, he, hfe⟩
      have hge : fresh ≤ e.eid := hids e.eid (List.mem_map.mpr ⟨e, he, rfl⟩)
      have hlt1 : (panel.edges.get ⟨eid1, h1⟩).eid < fresh :=
        hfresh _ (List.getElem_mem h1)
      have hlt2 : (panel.edges.get ⟨eid2, h2⟩).eid < fresh :=
        hfresh _ (List.getElem_mem h2)
      rw [← hfe]
      constructor <;> simp only [ne_eq] <;> omega
  · simp only [hAny, if_false]
    refine ⟨?_, fun hyes => absurd (hAnyIff.mpr hyes) hAny, fun _ => rfl, hrunlen⟩
    intro it hit
    have hno := hAnyIff.not.mp hAny
    push_neg at hno
    exact hno it hit

theorem RotY.one_comp (q : RotY) : RotY.one.comp q = q := by
  simp [RotY.one, RotY.comp]

theorem RotY.one_apply (v : ℚ × ℚ × ℚ) : RotY.one.apply v = v := by
  simp [RotY.one, RotY.apply]

theorem RotY.comp_apply (a b : RotY) (v : ℚ × ℚ × ℚ) :
    (a.comp b).apply v = a.apply (b.apply v) := by
  simp only [RotY.comp, RotY.apply, Prod.mk.injEq, true_and, and_true,
    eq_self_iff_true]
  constructor <;> ring

theorem RotY.comp_assoc (a b c : RotY) :
    (a.comp b).comp c = a.comp (b.comp c) := by
  simp only [RotY.comp, RotY.mk.injEq]
  constructor <;> ring

theorem distribute_fold_spec (component : Component) (delta : RotY) (m : ℕ) :
    ((List.range m).foldl
      (fun copies i => copies ++ [distStep delta i (copies.getLastD component)])
      [component]).length = m + 1 ∧
    ∀ i, i ≤ m →
      (((List.range m).foldl
        (fun copies i => copies ++ [distStep delta i (copies.getLastD component)])
        [component]).getD i component).rotation =
          (RotY.pow delta i).comp component.rotation ∧
      (((List.range m).foldl
        (fun copies i => copies ++ [distStep delta i (copies.getLastD component)])
        [component]).getD i component).translation =
          (RotY.pow delta i).apply component.translation ∧
      (((List.range m).foldl
        (fun copies i => copies ++ [distStep delta i (copies.getLastD component)])
        [component]).getD i component).shape = component.shape := by
  induction m with
  | zero =>
    refine ⟨rfl, ?_⟩
    intro i hi
    interval_cases i
    simp [RotY.pow, RotY.one_comp, RotY.one_apply]
  | succ m ih =>
    obtain ⟨ihlen, ihP⟩ := ih
    rw [List.range_succ, List.foldl_append]
    set L := (List.range m).foldl
      (fun copies i => copies ++ [distStep delta i (copies.getLastD component)])
      [component] with hL
    simp only [List.foldl_cons, List.foldl_nil]
    have hlast : L.getLastD component = L.getD m component := by
      rw [List.getLastD_eq_getLast?, List.getLast?_eq_getElem?, ihlen,
        List.getD_eq_getElem?_getD]
      simp
    constructor
    · simp [ihlen]
    · intro i hi
      rcases Nat.lt_or_ge i (m + 1) with hilt | hige
      · have hgd : (L ++ [distStep delta m (L.getLastD component)]).getD i component
            = L.getD i component := by
          rw [List.getD_append]
          omega
        rw [hgd]
        exact ihP i (by omega)
      · have hieq : i = m + 1 := by omega
        subst hieq
        have hgd : (L ++ [distStep delta m (L.getLastD component)]).getD (m + 1) component
            = distStep delta m (L.getLastD component) := by
          rw [List.getD_eq_getElem?_getD, List.getElem?_append_right (by omega),
            ihlen]
          simp
        rw [hgd, hlast]
        obtain ⟨hr, ht, hs⟩ := ihP m (le_refl m)
        refine ⟨?_, ?_, ?_⟩
        · show delta.comp ((L.getD m component).rotation) = _
          rw [hr, RotY.pow, ← RotY.comp_assoc]
        · show delta.apply ((L.getD m component).translation) = _
          rw [ht, RotY.pow, RotY.comp_apply]
        · exact hs

/-- **C8.** For every component and `n ≥ 1`, `distribute_Y` returns
exactly `n` components; the `i`-th one's rotation is the original's
composed with `i` copies of the per-step rotation `delta` (which stands
for the rotation by `360/n` degrees about the vertical axis), its
translation is the original translation mapped through that cumulative
rotation, and its local shape is preserved. -/
theorem distribute_Y_spec (component : Component) (n : ℕ) (delta : RotY)
    (hn : 1 ≤ n) :
    (distribute_Y component n delta).length = n ∧
    ∀ i, i < n →
      ((distribute_Y component n delta).getD i component).rotation =
        (RotY.pow delta i).comp component.rotation ∧
      ((distribute_Y component n delta).getD i component).translation =
        (RotY.pow delta i).apply component.translation ∧
      ((distribute_Y component n delta).getD i component).shape =
        component.shape := by
  obtain ⟨hlen, hP⟩ := distribute_fold_spec component delta (n - 1)
  rw [distribute_Y]
  constructor
  · rw [hlen]; omega
  · intro i hi
    exact hP i (by omega)

theorem splitLoop_spec (centerX : ℚ) (paths : List SvgPath) :
    ((∃ m, splitLoop centerX paths = .error m) ↔
      ∃ p ∈ paths, p.interT.length ≠ 2) ∧
    (∀ l r, splitLoop centerX paths = .ok (l, r) →
      l.length = paths.length ∧ r.length = paths.length ∧
      ∀ i, i < paths.length →
        (l.getD i junkHalf).srcPid = (paths.getD i junkSvg).pid ∧
        (r.getD i junkHalf).srcPid = (paths.getD i junkSvg).pid) := by
  induction paths with
  | nil =>
    constructor
    · simp [splitLoop]
    · intro l r hok
      simp only [splitLoop, Except.ok.injEq, Prod.mk.injEq] at hok
      obtain ⟨rfl, rfl⟩ := hok
      exact ⟨rfl, rfl, fun i hi => absurd hi (by simp)⟩
  | cons p rest ih =>
    obtain ⟨ihErr, ihOk⟩ := ih
    by_cases hlen : p.interT.length ≠ 2
    · rw [splitLoop, if_pos hlen]
      constructor
      · simp only [List.mem_cons]
        exact ⟨fun _ => ⟨p, Or.inl rfl, hlen⟩, fun _ => ⟨msgSplit, rfl⟩⟩
      · intro l r hok
        exact Except.noConfusion hok
    · rw [splitLoop, if_neg hlen]
      push_neg at hlen
      cases hrec : splitLoop centerX rest with
      | error m =>
        constructor
        · simp only [List.mem_cons]
          refine ⟨fun _ => ?_, fun _ => ⟨m, rfl⟩⟩
          obtain ⟨q, hq, hq2⟩ := ihErr.mp ⟨m, hrec⟩
          exact ⟨q, Or.inr hq, hq2⟩
        · intro l r hok
          exact Except.noConfusion hok
      | ok lr =>
        obtain ⟨l0, r0⟩ := lr
        constructor
        · constructor
          · intro ⟨m, hm⟩
            exact Except.noConfusion hm
          · intro ⟨q, hq, hq2⟩
            rcases List.mem_cons.mp hq with rfl | hq
            · exact absurd hlen hq2
            · obtain ⟨m, hm⟩ := ihErr.mpr ⟨q, hq, hq2⟩
              rw [hm] at hrec
              exact Except.noConfusion hrec
        · intro l r hok
          simp only [Except.ok.injEq, Prod.mk.injEq] at hok
          obtain ⟨rfl, rfl⟩ := hok
          obtain ⟨hl0, hr0, hP⟩ := ihOk l0 r0 hrec
          refine ⟨by simp [hl0], by simp [hr0], ?_⟩
          intro i hi
          cases i with
          | zero =>
            simp only [List.getD_cons_zero, List.getD_cons_zero]
            constructor <;> · split <;> rfl
          | succ j =>
            simp only [List.getD_cons_succ]
            exact hP j (by simpa using hi)

/-- **C10 (amended).** For a nonempty path list, `split_half_svg_paths`
raises a fatal error iff some input path crosses the centre vertical
line a number of times different from exactly 2; otherwise it returns
two lists, each containing exactly one half per input path (in input
order).  The error message, however, is a fixed generic string that does
not identify the offending path — see the counterexample. -/
theorem split_half_svg_paths_spec (paths : List SvgPath) (hne : paths ≠ []) :
    ((∃ m, split_half_svg_paths paths = .error m) ↔
      ∃ p ∈ paths, p.interT.length ≠ 2) ∧
    (∀ l r, split_half_svg_paths paths = .ok (l, r) →
      l.length = paths.length ∧ r.length = paths.length ∧
      ∀ i, i < paths.length →
        (l.getD i junkHalf).srcPid = (paths.getD i junkSvg).pid ∧
        (r.getD i junkHalf).srcPid = (paths.getD i junkSvg).pid) := by
  cases paths with
  | nil => exact absurd rfl hne
  | cons p0 rest => exact splitLoop_spec _ _

/-- **C10 counterexample.** The error is *not* "reported with the
identity of the offending path": two inputs whose offending paths are
different objects (pids 7 and 8, different intersection patterns)
produce the identical error value, so the error cannot identify the
offending path. -/
theorem split_error_lacks_offender_identity :
    split_half_svg_paths [⟨7, ((0 : ℚ), (1 : ℚ), (0 : ℚ), (1 : ℚ)), [0], fun _ _ => 0⟩] =
      split_half_svg_paths
        [⟨8, ((0 : ℚ), (1 : ℚ), (0 : ℚ), (1 : ℚ)), [0, 1 / 2, 1], fun _ _ => 0⟩] ∧
    split_half_svg_paths [⟨7, ((0 : ℚ), (1 : ℚ), (0 : ℚ), (1 : ℚ)), [0], fun _ _ => 0⟩] =
      .error msgSplit ∧
    (7 : ℕ) ≠ 8 := by
  exact ⟨rfl, rfl, by decide⟩

theorem cut_corner_preserves_closed_loop_witness :
    ∃ p2 : Panel,
      cut_corner [⟨99, ((9 : ℚ), (0 : ℚ)), ((10 : ℚ), (2 : ℚ))⟩]
        ⟨[⟨0, ((0 : ℚ), (0 : ℚ)), ((10 : ℚ), (0 : ℚ))⟩,
          ⟨1, ((10 : ℚ), (0 : ℚ)), ((10 : ℚ), (10 : ℚ))⟩,
          ⟨2, ((10 : ℚ), (10 : ℚ)), ((0 : ℚ), (10 : ℚ))⟩,
          ⟨3, ((0 : ℚ), (10 : ℚ)), ((0 : ℚ), (0 : ℚ))⟩], []⟩
        0 1 ⟨true, (0, 0), 0⟩ ⟨true, (0, 0), 0⟩ 1 100 = .ok p2 ∧
      closedChainB p2.edges = true ∧ vecSum p2.edges = 0 ∧
      p2.edges.length = 4 - 2 + (1 + 2) := by
  have hok : cut_corner [⟨99, ((9 : ℚ), (0 : ℚ)), ((10 : ℚ), (2 : ℚ))⟩]
      ⟨[⟨0, ((0 : ℚ), (0 : ℚ)), ((10 : ℚ), (0 : ℚ))⟩,
        ⟨1, ((10 : ℚ), (0 : ℚ)), ((10 : ℚ), (10 : ℚ))⟩,
        ⟨2, ((10 : ℚ), (10 : ℚ)), ((0 : ℚ), (10 : ℚ))⟩,
        ⟨3, ((0 : ℚ), (10 : ℚ)), ((0 : ℚ), (0 : ℚ))⟩], []⟩
      0 1 ⟨true, (0, 0), 0⟩ ⟨true, (0, 0), 0⟩ 1 100 =
      .ok ⟨[⟨101, ((0 : ℚ), (0 : ℚ)), ((9 : ℚ), (0 : ℚ))⟩,
            ⟨100, ((9 : ℚ), (0 : ℚ)), ((10 : ℚ), (2 : ℚ))⟩,
            ⟨102, ((10 : ℚ), (2 : ℚ)), ((10 : ℚ), (10 : ℚ))⟩,
            ⟨2, ((10 : ℚ), (10 : ℚ)), ((0 : ℚ), (10 : ℚ))⟩,
            ⟨3, ((0 : ℚ), (10 : ℚ)), ((0 : ℚ), (0 : ℚ))⟩], []⟩ := by
    norm_num [cut_corner, mkCornerShape, relabel, flipSeq, shiftSeq,
      scaleEdgesFromStart, scalePt, insertSeq, pyInsert, junkE, flipE]
  refine ⟨_, hok, ?_⟩
  exact cut_corner_preserves_closed_loop (by simp) (by decide) (by decide)
    (by simp) (by simp) (by simp) hok

theorem cut_corner_error_propagation_witness :
    cut_corner [⟨99, ((9 : ℚ), (0 : ℚ)), ((10 : ℚ), (2 : ℚ))⟩]
      ⟨[⟨0, ((0 : ℚ), (0 : ℚ)), ((10 : ℚ), (0 : ℚ))⟩,
        ⟨1, ((10 : ℚ), (0 : ℚ)), ((10 : ℚ), (10 : ℚ))⟩], []⟩
      0 1 ⟨false, (0, 0), 0⟩ ⟨true, (0, 0), 0⟩ 1 100 = .error msgTranslation ∧
    cut_corner [⟨99, ((9 : ℚ), (0 : ℚ)), ((10 : ℚ), (2 : ℚ))⟩]
      ⟨[⟨0, ((0 : ℚ), (0 : ℚ)), ((10 : ℚ), (0 : ℚ))⟩,
        ⟨1, ((10 : ℚ), (0 : ℚ)), ((10 : ℚ), (10 : ℚ))⟩], []⟩
      0 1 ⟨true, (0, 0), 1⟩ ⟨false, (0, 0), 0⟩ 1 100 = .error msgScaling := by
  constructor
  · exact (cut_corner_error_propagation (by simp) (by simp) (by simp)).1 rfl
  · exact (cut_corner_error_propagation (by simp) (by simp) (by simp)).2 rfl
      (by norm_num) rfl

theorem cut_corner_interfaces_witness :
    ∃ (p2 : Panel) (run : List LEdge),
      mkCornerShape [⟨99, ((9 : ℚ), (0 : ℚ)), ((10 : ℚ), (2 : ℚ))⟩]
        ⟨[⟨0, ((0 : ℚ), (0 : ℚ)), ((10 : ℚ), (0 : ℚ))⟩,
          ⟨1, ((10 : ℚ), (0 : ℚ)), ((10 : ℚ), (10 : ℚ))⟩,
          ⟨2, ((10 : ℚ), (10 : ℚ)), ((0 : ℚ), (10 : ℚ))⟩,
          ⟨3, ((0 : ℚ), (10 : ℚ)), ((0 : ℚ), (0 : ℚ))⟩], [⟨1⟩, ⟨3⟩]⟩
        0 1 ⟨true, (0, 0), 0⟩ ⟨true, (0, 0), 0⟩ 1 100 = .ok run ∧
      cut_corner [⟨99, ((9 : ℚ), (0 : ℚ)), ((10 : ℚ), (2 : ℚ))⟩]
        ⟨[⟨0, ((0 : ℚ), (0 : ℚ)), ((10 : ℚ), (0 : ℚ))⟩,
          ⟨1, ((10 : ℚ), (0 : ℚ)), ((10 : ℚ), (10 : ℚ))⟩,
          ⟨2, ((10 : ℚ), (10 : ℚ)), ((0 : ℚ), (10 : ℚ))⟩,
          ⟨3, ((0 : ℚ), (10 : ℚ)), ((0 : ℚ), (0 : ℚ))⟩], [⟨1⟩, ⟨3⟩]⟩
        0 1 ⟨true, (0, 0), 0⟩ ⟨true, (0, 0), 0⟩ 1 100 = .ok p2 ∧
      ∀ it ∈ p2.interfaces, it.edgeId ≠ 0 ∧ it.edgeId ≠ 1 := by
  have hrun : mkCornerShape [⟨99, ((9 : ℚ), (0 : ℚ)), ((10 : ℚ), (2 : ℚ))⟩]
      ⟨[⟨0, ((0 : ℚ), (0 : ℚ)), ((10 : ℚ), (0 : ℚ))⟩,
        ⟨1, ((10 : ℚ), (0 : ℚ)), ((10 : ℚ), (10 : ℚ))⟩,
        ⟨2, ((10 : ℚ), (10 : ℚ)), ((0 : ℚ), (10 : ℚ))⟩,
        ⟨3, ((0 : ℚ), (10 : ℚ)), ((0 : ℚ), (0 : ℚ))⟩], [⟨1⟩, ⟨3⟩]⟩
      0 1 ⟨true, (0, 0), 0⟩ ⟨true, (0, 0), 0⟩ 1 100 =
      .ok [⟨101, ((0 : ℚ), (0 : ℚ)), ((9 : ℚ), (0 : ℚ))⟩,
           ⟨100, ((9 : ℚ), (0 : ℚ)), ((10 : ℚ), (2 : ℚ))⟩,
           ⟨102, ((10 : ℚ), (2 : ℚ)), ((10 : ℚ), (10 : ℚ))⟩] := by
    norm_num [mkCornerShape, relabel, flipSeq, shiftSeq,
      scaleEdgesFromStart, scalePt, junkE, flipE]
  have hok : cut_corner [⟨99, ((9 : ℚ), (0 : ℚ)), ((10 : ℚ), (2 : ℚ))⟩]
      ⟨[⟨0, ((0 : ℚ), (0 : ℚ)), ((10 : ℚ), (0 : ℚ))⟩,
        ⟨1, ((10 : ℚ), (0 : ℚ)), ((10 : ℚ), (10 : ℚ))⟩,
        ⟨2, ((10 : ℚ), (10 : ℚ)), ((0 : ℚ), (10 : ℚ))⟩,
        ⟨3, ((0 : ℚ), (10 : ℚ)), ((0 : ℚ), (0 : ℚ))⟩], [⟨1⟩, ⟨3⟩]⟩
      0 1 ⟨true, (0, 0), 0⟩ ⟨true, (0, 0), 0⟩ 1 100 =
      .ok ⟨[⟨101, ((0 : ℚ), (0 : ℚ)), ((9 : ℚ), (0 : ℚ))⟩,
            ⟨100, ((9 : ℚ), (0 : ℚ)), ((10 : ℚ), (2 : ℚ))⟩,
            ⟨102, ((10 : ℚ), (2 : ℚ)), ((10 : ℚ), (10 : ℚ))⟩,
            ⟨2, ((10 : ℚ), (10 : ℚ)), ((0 : ℚ), (10 : ℚ))⟩,
            ⟨3, ((0 : ℚ), (10 : ℚ)), ((0 : ℚ), (0 : ℚ))⟩],
           [⟨3⟩, ⟨101⟩, ⟨100⟩, ⟨102⟩]⟩ := by
    norm_num [cut_corner, mkCornerShape, relabel, flipSeq, shiftSeq,
      scaleEdgesFromStart, scalePt, insertSeq, pyInsert, junkE, flipE]
  refine ⟨_, _, hrun, hok, ?_⟩
  exact (cut_corner_interfaces (by simp) (by simp) (by simp) (by decide)
    (by decide) hrun hok).1

theorem distribute_Y_spec_witness :
    (distribute_Y ⟨"c", ⟨1, 0⟩, (1, 2, 3), 7⟩ 4 ⟨0, 1⟩).length = 4 :=
  (distribute_Y_spec ⟨"c", ⟨1, 0⟩, (1, 2, 3), 7⟩ 4 ⟨0, 1⟩ (by norm_num)).1

theorem split_half_svg_paths_spec_witness :
    (∃ m, split_half_svg_paths
      [⟨7, ((0 : ℚ), (1 : ℚ), (0 : ℚ), (1 : ℚ)), [0], fun _ _ => 0⟩] = .error m) := by
  refine (split_half_svg_paths_spec
    [⟨7, ((0 : ℚ), (1 : ℚ), (0 : ℚ), (1 : ℚ)), [0], fun _ _ => 0⟩]
    (by simp)).1.mpr ?_
  exact ⟨_, List.mem_singleton.mpr rfl, by simp⟩

namespace Darts

theorem nrm_nonneg (v : ℝ × ℝ) : 0 ≤ nrm v := Real.sqrt_nonneg _

theorem nrm_sq (v : ℝ × ℝ) : nrm v ^ 2 = v.1 ^ 2 + v.2 ^ 2 :=
  Real.sq_sqrt (by positivity)

theorem nrm_eq_zero_iff (v : ℝ × ℝ) : nrm v = 0 ↔ v = 0 := by
  rw [nrm, Real.sqrt_eq_zero (by positivity), Prod.ext_iff]
  simp only [Prod.fst_zero, Prod.snd_zero]
  constructor
  · intro h
    constructor <;> nlinarith [sq_nonneg v.1, sq_nonneg v.2]
  · rintro ⟨h1, h2⟩
    rw [h1, h2]
    ring

theorem nrm_smul (c : ℝ) (v : ℝ × ℝ) : nrm (c • v) = |c| * nrm v := by
  rw [nrm, nrm]
  show Real.sqrt ((c * v.1) ^ 2 + (c * v.2) ^ 2) = _
  rw [show (c * v.1) ^ 2 + (c * v.2) ^ 2 = c ^ 2 * (v.1 ^ 2 + v.2 ^ 2) by ring,
    Real.sqrt_mul (by positivity), Real.sqrt_sq_eq_abs]


theorem dot_self_eq (v : ℝ × ℝ) : dot v v = v.1 ^ 2 + v.2 ^ 2 := by
  simp [dot]
  ring

theorem nrm_eq_sqrt_dot (v : ℝ × ℝ) : nrm v = Real.sqrt (dot v v) := by
  rw [nrm, dot_self_eq]

theorem relToAbs_sub (v0 v1 a b : ℝ × ℝ) :
    relToAbs v0 v1 a - relToAbs v0 v1 b = rot2 v0 v1 (a - b) := by
  simp only [relToAbs, rot2, Prod.ext_iff, Prod.fst_add, Prod.snd_add,
    Prod.fst_sub, Prod.snd_sub, Prod.smul_fst, Prod.smul_snd, smul_eq_mul]
  constructor <;> ring

theorem dot_rot2 (v0 v1 : ℝ × ℝ) (hL : nrm (v1 - v0) ≠ 0) (x y : ℝ × ℝ) :
    dot (rot2 v0 v1 x) (rot2 v0 v1 y) = dot x y := by
  have hu : (nrm (v1 - v0))⁻¹ ^ 2 * ((v1 - v0).1 ^ 2 + (v1 - v0).2 ^ 2) = 1 := by
    rw [← nrm_sq]
    field_simp
  simp only [dot, rot2, Prod.fst_add, Prod.snd_add, Prod.smul_fst,
    Prod.smul_snd, Prod.fst_sub, Prod.snd_sub, smul_eq_mul]
  simp only [Prod.fst_sub, Prod.snd_sub] at hu
  linear_combination (x.1 * y.1 + x.2 * y.2) * hu

theorem nrm_rot2 (v0 v1 : ℝ × ℝ) (hL : nrm (v1 - v0) ≠ 0) (x : ℝ × ℝ) :
    nrm (rot2 v0 v1 x) = nrm x := by
  rw [nrm_eq_sqrt_dot, nrm_eq_sqrt_dot, dot_rot2 v0 v1 hL]

theorem dp_sq {w depth : ℝ} (hwd : w < 2 * depth) (hw : 0 ≤ w) :
    Real.sqrt (depth ^ 2 - (w / 2) ^ 2) ^ 2 = depth ^ 2 - (w / 2) ^ 2 :=
  Real.sq_sqrt (by nlinarith)

theorem dp_pos {w depth : ℝ} (hwd : w < 2 * depth) (hw : 0 ≤ w) :
    0 < Real.sqrt (depth ^ 2 - (w / 2) ^ 2) :=
  Real.sqrt_pos.mpr (by nlinarith)

theorem arctan_nn {x : ℝ} (hx : 0 ≤ x) : 0 ≤ Real.arctan x := by
  rw [← Real.arctan_zero]
  exact Real.arctan_strictMono.monotone hx

theorem cos_top_eq {w depth : ℝ} (hw : 0 ≤ w) (hwd : w < 2 * depth)
    (hd : 0 < depth) :
    Real.cos (Real.pi -
        2 * |Real.arctan (w / 2 / Real.sqrt (depth ^ 2 - (w / 2) ^ 2))|) =
      w ^ 2 / (2 * depth ^ 2) - 1 := by
  have hdpp := dp_pos hwd hw
  have hdp2 := dp_sq hwd hw
  set dp := Real.sqrt (depth ^ 2 - (w / 2) ^ 2) with hdp
  have ht0 : 0 ≤ w / 2 / dp := by positivity
  rw [abs_of_nonneg (arctan_nn ht0), Real.cos_pi_sub,
    Real.cos_two_mul, Real.cos_arctan]
  have hS : Real.sqrt (1 + (w / 2 / dp) ^ 2) ^ 2 = 1 + (w / 2 / dp) ^ 2 :=
    Real.sq_sqrt (by positivity)
  rw [div_pow, one_pow, hS]
  have hSne : 1 + (w / 2 / dp) ^ 2 ≠ 0 := by positivity
  field_simp
  nlinarith [hdp2]

theorem sin_top_eq {w depth : ℝ} (hw : 0 ≤ w) (hwd : w < 2 * depth)
    (hd : 0 < depth) :
    Real.sin (Real.pi -
        2 * |Real.arctan (w / 2 / Real.sqrt (depth ^ 2 - (w / 2) ^ 2))|) =
      w * Real.sqrt (depth ^ 2 - (w / 2) ^ 2) / depth ^ 2 := by
  have hdpp := dp_pos hwd hw
  have hdp2 := dp_sq hwd hw
  set dp := Real.sqrt (depth ^ 2 - (w / 2) ^ 2) with hdp
  have ht0 : 0 ≤ w / 2 / dp := by positivity
  rw [abs_of_nonneg (arctan_nn ht0), Real.sin_pi_sub,
    Real.sin_two_mul, Real.sin_arctan, Real.cos_arctan]
  have hS : Real.sqrt (1 + (w / 2 / dp) ^ 2) ^ 2 = 1 + (w / 2 / dp) ^ 2 :=
    Real.sq_sqrt (by positivity)
  have hSpos : 0 < Real.sqrt (1 + (w / 2 / dp) ^ 2) :=
    Real.sqrt_pos.mpr (by positivity)
  field_simp
  linear_combination (-4 * w * dp) * hdp2

theorem sin_cos_top_sq {w depth : ℝ} (hw : 0 ≤ w) (hwd : w < 2 * depth)
    (hd : 0 < depth) :
    (w * Real.sqrt (depth ^ 2 - (w / 2) ^ 2) / depth ^ 2) ^ 2 +
      (w ^ 2 / (2 * depth ^ 2) - 1) ^ 2 = 1 := by
  have hdp2 := dp_sq hwd hw
  have hdne : depth ≠ 0 := ne_of_gt hd
  set dp := Real.sqrt (depth ^ 2 - (w / 2) ^ 2) with hdp
  field_simp
  linear_combination (4 * w ^ 2 * depth ^ 4) * hdp2

theorem cos_arcsin_fit (s0 s1 cc sn E : ℝ)
    (hE : E = s0 ^ 2 + s1 ^ 2 - 2 * s0 * s1 * cc)
    (hsc : sn ^ 2 + cc ^ 2 = 1) (hEpos : 0 < E) :
    Real.cos (Real.arcsin (s1 * sn / Real.sqrt E)) =
      |s0 - s1 * cc| / Real.sqrt E := by
  rw [Real.cos_arcsin]
  have hsE : Real.sqrt E ^ 2 = E := Real.sq_sqrt (le_of_lt hEpos)
  have hsEpos : 0 < Real.sqrt E := Real.sqrt_pos.mpr hEpos
  have key : 1 - (s1 * sn / Real.sqrt E) ^ 2 = (s0 - s1 * cc) ^ 2 / E := by
    rw [div_pow, hsE]
    field_simp
    nlinarith [hsE]
  rw [key, Real.sqrt_div (sq_nonneg _), Real.sqrt_sq_eq_abs]

theorem E_pos_spec (s0 s1 cc : ℝ) (hs0 : 0 < s0) (hs1 : 0 < s1)
    (hc1 : -1 < cc) (hc2 : cc < 1) :
    0 < s0 ^ 2 + s1 ^ 2 - 2 * s0 * s1 * cc := by
  nlinarith [sq_nonneg (s0 - s1 * cc), mul_pos (pow_pos hs1 2)
    (mul_pos (by linarith : (0:ℝ) < 1 - cc) (by linarith : (0:ℝ) < 1 + cc))]


theorem dart_eq_alg (v0 v1 : ℝ × ℝ) (w depth loc : ℝ)
    (hv : nrm (v1 - v0) ≠ 0) (hw : 0 < w) (hwd : w < 2 * depth)
    (hd : 0 < depth) (hl1 : 0 < loc) (hl2 : loc < 1) :
    dart v0 v1 w depth loc = dartAlg v0 v1 w depth loc := by
  have hL : 0 < nrm (v1 - v0) :=
    lt_of_le_of_ne (nrm_nonneg _) (Ne.symm hv)
  have hdpp := dp_pos hwd (le_of_lt hw)
  have hdp2 := dp_sq hwd (le_of_lt hw)
  have hd1 : 0 < nrm (v1 - v0) * loc := mul_pos hL hl1
  have hd2 : 0 < nrm (v1 - v0) * (1 - loc) := mul_pos hL (by linarith)
  have hdl : 0 < depth * w / (2 * Real.sqrt (depth ^ 2 - (w / 2) ^ 2)) := by
    positivity
  have hc1 : -1 < w ^ 2 / (2 * depth ^ 2) - 1 := by
    have : 0 < w ^ 2 / (2 * depth ^ 2) := by positivity
    linarith
  have hc2 : w ^ 2 / (2 * depth ^ 2) - 1 < 1 := by
    have hlt : w ^ 2 / (2 * depth ^ 2) < 2 := by
      rw [div_lt_iff (by positivity)]
      nlinarith
    linarith
  have hEpos := E_pos_spec (nrm (v1 - v0) * loc + depth * w / (2 * Real.sqrt (depth ^ 2 - (w / 2) ^ 2))) (nrm (v1 - v0) * (1 - loc) + depth * w / (2 * Real.sqrt (depth ^ 2 - (w / 2) ^ 2))) (w ^ 2 / (2 * depth ^ 2) - 1)
    (by linarith) (by linarith) hc1 hc2
  have harc1 := cos_arcsin_fit (nrm (v1 - v0) * loc + depth * w / (2 * Real.sqrt (depth ^ 2 - (w / 2) ^ 2))) (nrm (v1 - v0) * (1 - loc) + depth * w / (2 * Real.sqrt (depth ^ 2 - (w / 2) ^ 2))) (w ^ 2 / (2 * depth ^ 2) - 1) (w * Real.sqrt (depth ^ 2 - (w / 2) ^ 2) / depth ^ 2)
    ((nrm (v1 - v0) * loc + depth * w / (2 * Real.sqrt (depth ^ 2 - (w / 2) ^ 2))) ^ 2 + (nrm (v1 - v0) * (1 - loc) + depth * w / (2 * Real.sqrt (depth ^ 2 - (w / 2) ^ 2))) ^ 2 - 2 * (nrm (v1 - v0) * loc + depth * w / (2 * Real.sqrt (depth ^ 2 - (w / 2) ^ 2))) * (nrm (v1 - v0) * (1 - loc) + depth * w / (2 * Real.sqrt (depth ^ 2 - (w / 2) ^ 2))) * (w ^ 2 / (2 * depth ^ 2) - 1)) rfl (sin_cos_top_sq (le_of_lt hw) hwd hd) hEpos
  have harc2 := cos_arcsin_fit (nrm (v1 - v0) * (1 - loc) + depth * w / (2 * Real.sqrt (depth ^ 2 - (w / 2) ^ 2))) (nrm (v1 - v0) * loc + depth * w / (2 * Real.sqrt (depth ^ 2 - (w / 2) ^ 2))) (w ^ 2 / (2 * depth ^ 2) - 1) (w * Real.sqrt (depth ^ 2 - (w / 2) ^ 2) / depth ^ 2)
    ((nrm (v1 - v0) * loc + depth * w / (2 * Real.sqrt (depth ^ 2 - (w / 2) ^ 2))) ^ 2 + (nrm (v1 - v0) * (1 - loc) + depth * w / (2 * Real.sqrt (depth ^ 2 - (w / 2) ^ 2))) ^ 2 - 2 * (nrm (v1 - v0) * loc + depth * w / (2 * Real.sqrt (depth ^ 2 - (w / 2) ^ 2))) * (nrm (v1 - v0) * (1 - loc) + depth * w / (2 * Real.sqrt (depth ^ 2 - (w / 2) ^ 2))) * (w ^ 2 / (2 * depth ^ 2) - 1)) (by ring) (sin_cos_top_sq (le_of_lt hw) hwd hd) hEpos
  rw [dart, dartAlg]
  rw [cos_top_eq (le_of_lt hw) hwd hd, sin_top_eq (le_of_lt hw) hwd hd]
  rw [harc1, harc2]

theorem nn_sq_eq {a b : ℝ} (ha : 0 ≤ a) (hb : 0 ≤ b) (h : a ^ 2 = b ^ 2) :
    a = b := by
  rw [← Real.sqrt_sq ha, ← Real.sqrt_sq hb, h]

theorem flank1_sq (d1 s0 s1 cc sn E ls : ℝ)
    (hE : E = s0 ^ 2 + s1 ^ 2 - 2 * s0 * s1 * cc)
    (hsc : sn ^ 2 + cc ^ 2 = 1) (hls : ls ^ 2 = E) (hlsne : ls ≠ 0) :
    (d1 * (|s0 - s1 * cc| / ls)) ^ 2 + (d1 * (s1 * sn / ls)) ^ 2 = d1 ^ 2 := by
  have h1 : (d1 * (|s0 - s1 * cc| / ls)) ^ 2 = d1 ^ 2 * (s0 - s1 * cc) ^ 2 / ls ^ 2 := by
    rw [mul_pow, div_pow, sq_abs]
    ring
  have h2 : (d1 * (s1 * sn / ls)) ^ 2 = d1 ^ 2 * (s1 * sn) ^ 2 / ls ^ 2 := by
    rw [mul_pow, div_pow]
    ring
  rw [h1, h2, div_add_div_same, div_eq_iff (pow_ne_zero 2 hlsne)]
  linear_combination (d1 ^ 2 * s1 ^ 2) * hsc + (-(d1 ^ 2)) * hE + (-(d1 ^ 2)) * hls

theorem pv_sq_good (d1 d2 dl s0 s1 cc sn E ls dp w depth : ℝ)
    (hs0 : s0 = d1 + dl) (hs1 : s1 = d2 + dl)
    (hE : E = s0 ^ 2 + s1 ^ 2 - 2 * s0 * s1 * cc)
    (hsc : sn ^ 2 + cc ^ 2 = 1) (hls : ls ^ 2 = E) (hlsne : ls ≠ 0)
    (hdl : dl = depth * w / (2 * dp))
    (hdp2 : dp ^ 2 = depth ^ 2 - (w / 2) ^ 2)
    (hcc : cc = w ^ 2 / (2 * depth ^ 2) - 1)
    (hdp : dp ≠ 0) (hdepth : depth ≠ 0)
    (habs1 : |s0 - s1 * cc| = s0 - s1 * cc)
    (habs2 : |s1 - s0 * cc| = s1 - s0 * cc) :
    (ls - d2 * (|s1 - s0 * cc| / ls) - d1 * (|s0 - s1 * cc| / ls)) ^ 2 +
      (d2 * (s0 * sn / ls) - d1 * (s1 * sn / ls)) ^ 2 = w ^ 2 := by
  rw [habs1, habs2]
  have hXd : ls - d2 * ((s1 - s0 * cc) / ls) - d1 * ((s0 - s1 * cc) / ls) =
      (E - d2 * (s1 - s0 * cc) - d1 * (s0 - s1 * cc)) / ls := by
    field_simp
    linear_combination hls
  have hd1e : d1 = s0 - dl := by linarith
  have hd2e : d2 = s1 - dl := by linarith
  have hYd : d2 * (s0 * sn / ls) - d1 * (s1 * sn / ls) =
      dl * (s1 - s0) * sn / ls := by
    rw [hd1e, hd2e]
    field_simp
    ring
  have hnum : E - d2 * (s1 - s0 * cc) - d1 * (s0 - s1 * cc) =
      dl * (s0 + s1) * (1 - cc) := by
    rw [hE, hd1e, hd2e]
    ring
  have hkey : (dl * (s0 + s1) * (1 - cc)) ^ 2 + (dl * (s1 - s0) * sn) ^ 2 =
      2 * dl ^ 2 * (1 - cc) * E := by
    rw [hE]
    linear_combination (dl ^ 2 * (s1 - s0) ^ 2) * hsc
  have hw2 : 2 * dl ^ 2 * (1 - cc) = w ^ 2 := by
    rw [hdl, hcc]
    field_simp
    linear_combination (-8 * w ^ 2 * depth ^ 2) * hdp2
  rw [hXd, hYd, hnum, div_pow, div_pow, div_add_div_same,
    div_eq_iff (pow_ne_zero 2 hlsne), hls, hkey, hw2]

theorem nrm_perp (v : ℝ × ℝ) : nrm ((-v.2, v.1) : ℝ × ℝ) = nrm v := by
  rw [nrm, nrm]
  congr 1
  ring

theorem tip_leg_sq (pv : ℝ × ℝ) (dp wd : ℝ) (s : ℝ) (hs : s = 1/2 ∨ s = -(1/2))
    (hpv : nrm pv = wd) (hwd : 0 < wd) :
    nrm (s • pv - (dp / nrm ((-pv.2, pv.1) : ℝ × ℝ)) • ((-pv.2, pv.1) : ℝ × ℝ)) ^ 2 =
      wd ^ 2 / 4 + dp ^ 2 := by
  have hperp : nrm ((-pv.2, pv.1) : ℝ × ℝ) = wd := by rw [nrm_perp, hpv]
  have hsq : pv.1 ^ 2 + pv.2 ^ 2 = wd ^ 2 := by rw [← nrm_sq, hpv]
  have hwne : wd ≠ 0 := ne_of_gt hwd
  rw [hperp, nrm_sq]
  simp only [Prod.fst_sub, Prod.snd_sub, Prod.smul_fst, Prod.smul_snd,
    smul_eq_mul]
  rcases hs with rfl | rfl <;>
    · field_simp
      linear_combination (16 * dp ^ 2 + 4 * wd ^ 2) * hsq

theorem dot_leg_axis (pv : ℝ × ℝ) (dp wd : ℝ) (s : ℝ)
    (hpv : nrm pv = wd) (hwd : 0 < wd) :
    dot (s • pv - (dp / nrm ((-pv.2, pv.1) : ℝ × ℝ)) • ((-pv.2, pv.1) : ℝ × ℝ))
      (-((dp / nrm ((-pv.2, pv.1) : ℝ × ℝ)) • ((-pv.2, pv.1) : ℝ × ℝ))) = dp ^ 2 := by
  have hperp : nrm ((-pv.2, pv.1) : ℝ × ℝ) = wd := by rw [nrm_perp, hpv]
  have hsq : pv.1 ^ 2 + pv.2 ^ 2 = wd ^ 2 := by rw [← nrm_sq, hpv]
  have hwne : wd ≠ 0 := ne_of_gt hwd
  rw [hperp]
  simp only [dot, Prod.fst_sub, Prod.snd_sub, Prod.smul_fst, Prod.smul_snd,
    Prod.fst_neg, Prod.snd_neg, smul_eq_mul]
  field_simp
  linear_combination dp ^ 2 * hsq

theorem angle_eq_arctan (u a : ℝ × ℝ) (dp depth wd : ℝ)
    (hdot : dot u a = dp ^ 2) (hnu : nrm u = depth) (hna : nrm a = dp)
    (hdp : 0 < dp) (hdep : 0 < depth) (hw0 : 0 ≤ wd)
    (hw4 : (wd / 2) ^ 2 = depth ^ 2 - dp ^ 2) :
    angleBetween u a = Real.arctan (wd / 2 / dp) := by
  have hcosv : dot u a / (nrm u * nrm a) = dp / depth := by
    rw [hdot, hnu, hna]
    field_simp
    ring
  have ht0 : 0 ≤ wd / 2 / dp := by positivity
  have hS : Real.sqrt (1 + (wd / 2 / dp) ^ 2) = depth / dp := by
    rw [show 1 + (wd / 2 / dp) ^ 2 = (depth / dp) ^ 2 by
      field_simp
      linear_combination (4 * dp ^ 2) * hw4]
    exact Real.sqrt_sq (by positivity)
  have hcos : Real.cos (Real.arctan (wd / 2 / dp)) = dp / depth := by
    rw [Real.cos_arctan, hS, one_div_div]
  rw [angleBetween, hcosv, ← hcos]
  exact Real.arccos_cos (arctan_nn ht0)
    (le_of_lt (lt_trans (Real.arctan_lt_pi_div_two _) (by linarith [Real.pi_pos])))

theorem relToAbs_sub_base (v0 v1 a : ℝ × ℝ) :
    relToAbs v0 v1 a - v0 = rot2 v0 v1 a := by
  simp only [relToAbs, rot2, Prod.ext_iff, Prod.fst_add, Prod.snd_add,
    Prod.fst_sub, Prod.snd_sub, Prod.smul_fst, Prod.smul_snd, smul_eq_mul]
  constructor <;> ring

theorem dot_neg_swap (x y : ℝ × ℝ) : dot (-x) y = dot x (-y) := by
  simp [dot]

theorem nrm_neg (v : ℝ × ℝ) : nrm (-v) = nrm v := by
  rw [nrm, nrm]
  congr 1
  simp

theorem nrm_axis (pv : ℝ × ℝ) (dp wd : ℝ) (hpv : nrm pv = wd)
    (hwd : 0 < wd) (hdp : 0 ≤ dp) :
    nrm ((dp / nrm ((-pv.2, pv.1) : ℝ × ℝ)) • ((-pv.2, pv.1) : ℝ × ℝ)) = dp := by
  have hperp : nrm ((-pv.2, pv.1) : ℝ × ℝ) = wd := by rw [nrm_perp, hpv]
  rw [nrm_smul, hperp, abs_div, abs_of_nonneg hdp, abs_of_pos hwd]
  field_simp

theorem dart_points_spec (v0 v1 p1 tip p2 nv1 : ℝ × ℝ)
    (d1 d2 dl s0 s1 cc sn E ls dp w depth : ℝ)
    (hvne : nrm (v1 - v0) ≠ 0) (hw : 0 < w) (hd : 0 < depth) (hdpp : 0 < dp)
    (hd1 : 0 < d1) (hd2 : 0 < d2) (hsum : d1 + d2 = nrm (v1 - v0))
    (hs0 : s0 = d1 + dl) (hs1 : s1 = d2 + dl)
    (hE : E = s0 ^ 2 + s1 ^ 2 - 2 * s0 * s1 * cc)
    (hsc : sn ^ 2 + cc ^ 2 = 1) (hls : ls ^ 2 = E) (hlsne : ls ≠ 0)
    (hdl : dl = depth * w / (2 * dp))
    (hdp2 : dp ^ 2 = depth ^ 2 - (w / 2) ^ 2)
    (hcc : cc = w ^ 2 / (2 * depth ^ 2) - 1)
    (habs1 : |s0 - s1 * cc| = s0 - s1 * cc)
    (habs2 : |s1 - s0 * cc| = s1 - s0 * cc)
    (hp1 : p1 = relToAbs v0 v1 (d1 * (|s0 - s1 * cc| / ls), d1 * (s1 * sn / ls)))
    (hnv1 : nv1 = relToAbs v0 v1 (ls, 0))
    (hp2 : p2 = relToAbs v0 v1
      (ls - d2 * (|s1 - s0 * cc| / ls), d2 * (s0 * sn / ls)))
    (htip : tip = p1 + (1 / 2 : ℝ) • (p2 - p1) -
      (dp / nrm ((-(p2 - p1).2, (p2 - p1).1) : ℝ × ℝ)) •
        ((-(p2 - p1).2, (p2 - p1).1) : ℝ × ℝ)) :
    nrm (p1 - v0) + nrm (nv1 - p2) = nrm (v1 - v0) ∧
      nrm (tip - p1) = depth ∧ nrm (tip - p2) = depth ∧
      angleBetween (p1 - tip) ((1 / 2 : ℝ) • (p1 + p2) - tip) =
        Real.arctan (w / 2 / dp) ∧
      angleBetween (p2 - tip) ((1 / 2 : ℝ) • (p1 + p2) - tip) =
        Real.arctan (w / 2 / dp) := by
  have hdne : depth ≠ 0 := ne_of_gt hd
  have hpyth : w ^ 2 / 4 + dp ^ 2 = depth ^ 2 := by linear_combination hdp2
  have hw4 : (w / 2) ^ 2 = depth ^ 2 - dp ^ 2 := by linear_combination hdp2
  -- (a) flank norms
  have hA : nrm (p1 - v0) = d1 := by
    rw [hp1, relToAbs_sub_base, nrm_rot2 v0 v1 hvne]
    refine nn_sq_eq (nrm_nonneg _) hd1.le ?_
    rw [nrm_sq]
    exact flank1_sq d1 s0 s1 cc sn E ls hE hsc hls hlsne
  have hB : nrm (nv1 - p2) = d2 := by
    rw [hnv1, hp2, relToAbs_sub, nrm_rot2 v0 v1 hvne]
    have hpair : ((ls, 0) : ℝ × ℝ) -
        (ls - d2 * (|s1 - s0 * cc| / ls), d2 * (s0 * sn / ls)) =
        (d2 * (|s1 - s0 * cc| / ls), -(d2 * (s0 * sn / ls))) := by
      simp only [Prod.ext_iff, Prod.fst_sub, Prod.snd_sub]
      constructor <;> ring
    rw [hpair]
    refine nn_sq_eq (nrm_nonneg _) hd2.le ?_
    rw [nrm_sq]
    show (d2 * (|s1 - s0 * cc| / ls)) ^ 2 + (-(d2 * (s0 * sn / ls))) ^ 2 = d2 ^ 2
    rw [neg_sq]
    exact flank1_sq d2 s1 s0 cc sn E ls (by rw [hE]; ring) hsc hls hlsne
  -- |p2 - p1| = w
  have hpv : nrm (p2 - p1) = w := by
    rw [hp2, hp1, relToAbs_sub, nrm_rot2 v0 v1 hvne]
    refine nn_sq_eq (nrm_nonneg _) hw.le ?_
    rw [nrm_sq]
    simp only [Prod.fst_sub, Prod.snd_sub]
    exact pv_sq_good d1 d2 dl s0 s1 cc sn E ls dp w depth hs0 hs1 hE hsc hls
      hlsne hdl hdp2 hcc (ne_of_gt hdpp) hdne habs1 habs2
  -- tip legs
  have htp1 : tip - p1 = (1 / 2 : ℝ) • (p2 - p1) -
      (dp / nrm ((-(p2 - p1).2, (p2 - p1).1) : ℝ × ℝ)) •
        ((-(p2 - p1).2, (p2 - p1).1) : ℝ × ℝ) := by
    rw [htip]
    abel
  have htp2 : tip - p2 = (-(1 / 2) : ℝ) • (p2 - p1) -
      (dp / nrm ((-(p2 - p1).2, (p2 - p1).1) : ℝ × ℝ)) •
        ((-(p2 - p1).2, (p2 - p1).1) : ℝ × ℝ) := by
    rw [htip]
    simp only [Prod.ext_iff, Prod.fst_sub, Prod.snd_sub, Prod.fst_add,
      Prod.snd_add, Prod.smul_fst, Prod.smul_snd, smul_eq_mul, Prod.fst_neg,
      Prod.snd_neg]
    constructor <;> ring
  have hT1 : nrm (tip - p1) = depth := by
    rw [htp1]
    refine nn_sq_eq (nrm_nonneg _) hd.le ?_
    rw [tip_leg_sq (p2 - p1) dp w (1 / 2) (Or.inl rfl) hpv hw, hpyth]
  have hT2 : nrm (tip - p2) = depth := by
    rw [htp2]
    refine nn_sq_eq (nrm_nonneg _) hd.le ?_
    rw [tip_leg_sq (p2 - p1) dp w (-(1 / 2)) (Or.inr rfl) hpv hw, hpyth]
  -- the axis from tip to the midpoint of the two flank points
  have haxis : (1 / 2 : ℝ) • (p1 + p2) - tip =
      (dp / nrm ((-(p2 - p1).2, (p2 - p1).1) : ℝ × ℝ)) •
        ((-(p2 - p1).2, (p2 - p1).1) : ℝ × ℝ) := by
    rw [htip]
    simp only [Prod.ext_iff, Prod.fst_sub, Prod.snd_sub, Prod.fst_add,
      Prod.snd_add, Prod.smul_fst, Prod.smul_snd, smul_eq_mul, Prod.fst_neg,
      Prod.snd_neg]
    constructor <;> ring
  have hnaxis : nrm ((dp / nrm ((-(p2 - p1).2, (p2 - p1).1) : ℝ × ℝ)) •
      ((-(p2 - p1).2, (p2 - p1).1) : ℝ × ℝ)) = dp :=
    nrm_axis (p2 - p1) dp w hpv hw hdpp.le
  have hang1 : angleBetween (p1 - tip) ((1 / 2 : ℝ) • (p1 + p2) - tip) =
      Real.arctan (w / 2 / dp) := by
    rw [haxis]
    have hneg : p1 - tip = -((1 / 2 : ℝ) • (p2 - p1) -
        (dp / nrm ((-(p2 - p1).2, (p2 - p1).1) : ℝ × ℝ)) •
          ((-(p2 - p1).2, (p2 - p1).1) : ℝ × ℝ)) := by
      rw [← htp1]
      abel
    refine angle_eq_arctan _ _ dp depth w ?_ ?_ hnaxis hdpp hd hw.le hw4
    · rw [hneg, dot_neg_swap]
      exact dot_leg_axis (p2 - p1) dp w (1 / 2) hpv hw
    · rw [hneg, nrm_neg, ← htp1, hT1]
  have hang2 : angleBetween (p2 - tip) ((1 / 2 : ℝ) • (p1 + p2) - tip) =
      Real.arctan (w / 2 / dp) := by
    rw [haxis]
    have hneg : p2 - tip = -((-(1 / 2) : ℝ) • (p2 - p1) -
        (dp / nrm ((-(p2 - p1).2, (p2 - p1).1) : ℝ × ℝ)) •
          ((-(p2 - p1).2, (p2 - p1).1) : ℝ × ℝ)) := by
      rw [← htp2]
      abel
    refine angle_eq_arctan _ _ dp depth w ?_ ?_ hnaxis hdpp hd hw.le hw4
    · rw [hneg, dot_neg_swap]
      exact dot_leg_axis (p2 - p1) dp w (-(1 / 2)) hpv hw
    · rw [hneg, nrm_neg, ← htp2, hT2]
  exact ⟨by rw [hA, hB, hsum], hT1, hT2, hang1, hang2⟩
theorem dart_points_tip_far (v0 v1 p1 tip p2 : ℝ × ℝ)
    (d1 d2 s0 s1 cc sn E ls dp : ℝ)
    (hvne : nrm (v1 - v0) ≠ 0)
    (hls : ls ^ 2 = E) (hlsne : ls ≠ 0)
    (habs1 : |s0 - s1 * cc| = -(s0 - s1 * cc))
    (habs2 : |s1 - s0 * cc| = s1 - s0 * cc)
    (hp1 : p1 = relToAbs v0 v1 (d1 * (|s0 - s1 * cc| / ls), d1 * (s1 * sn / ls)))
    (hp2 : p2 = relToAbs v0 v1
      (ls - d2 * (|s1 - s0 * cc| / ls), d2 * (s0 * sn / ls)))
    (htip : tip = p1 + (1 / 2 : ℝ) • (p2 - p1) -
      (dp / nrm ((-(p2 - p1).2, (p2 - p1).1) : ℝ × ℝ)) •
        ((-(p2 - p1).2, (p2 - p1).1) : ℝ × ℝ))
    (hnum : 4 * E < (E - d2 * (s1 - s0 * cc) - d1 * (s1 * cc - s0)) ^ 2) :
    1 < nrm (tip - p1) := by
  have hEpos : 0 < E := by
    have h1 : 0 < ls ^ 2 :=
      lt_of_le_of_ne (sq_nonneg ls) (Ne.symm (pow_ne_zero 2 hlsne))
    rw [hls] at h1
    exact h1
  have hrel : nrm (p2 - p1) =
      nrm (((ls - d2 * (|s1 - s0 * cc| / ls)) - d1 * (|s0 - s1 * cc| / ls),
            d2 * (s0 * sn / ls) - d1 * (s1 * sn / ls)) : ℝ × ℝ) := by
    rw [hp2, hp1, relToAbs_sub, nrm_rot2 v0 v1 hvne]
    congr 1
  have hxval : (ls - d2 * (|s1 - s0 * cc| / ls)) - d1 * (|s0 - s1 * cc| / ls) =
      (E - d2 * (s1 - s0 * cc) - d1 * (s1 * cc - s0)) / ls := by
    rw [habs1, habs2]
    field_simp
    linear_combination hls
  have hpv2 : (E - d2 * (s1 - s0 * cc) - d1 * (s1 * cc - s0)) ^ 2 / E ≤
      nrm (p2 - p1) ^ 2 := by
    rw [hrel, nrm_sq]
    dsimp only
    rw [hxval, div_pow, hls]
    nlinarith [sq_nonneg (d2 * (s0 * sn / ls) - d1 * (s1 * sn / ls))]
  have hnumpos : 0 < (E - d2 * (s1 - s0 * cc) - d1 * (s1 * cc - s0)) ^ 2 := by
    nlinarith
  have hfracpos : 0 < (E - d2 * (s1 - s0 * cc) - d1 * (s1 * cc - s0)) ^ 2 / E :=
    div_pos hnumpos hEpos
  have hpvsqpos : 0 < nrm (p2 - p1) ^ 2 := lt_of_lt_of_le hfracpos hpv2
  have hpvpos : 0 < nrm (p2 - p1) := by
    rcases (nrm_nonneg (p2 - p1)).lt_or_eq with h | h
    · exact h
    · rw [← h] at hpvsqpos
      simp at hpvsqpos
  have htp1 : tip - p1 = (1 / 2 : ℝ) • (p2 - p1) -
      (dp / nrm ((-(p2 - p1).2, (p2 - p1).1) : ℝ × ℝ)) •
        ((-(p2 - p1).2, (p2 - p1).1) : ℝ × ℝ) := by
    rw [htip]
    abel
  have hleg : nrm (tip - p1) ^ 2 = nrm (p2 - p1) ^ 2 / 4 + dp ^ 2 := by
    rw [htp1,
      tip_leg_sq (p2 - p1) dp (nrm (p2 - p1)) (1 / 2) (Or.inl rfl) rfl hpvpos]
  have h4 : 4 < (E - d2 * (s1 - s0 * cc) - d1 * (s1 * cc - s0)) ^ 2 / E := by
    rw [lt_div_iff₀ hEpos]
    linarith
  have hfinal : 1 < nrm (tip - p1) ^ 2 := by
    nlinarith [sq_nonneg dp]
  nlinarith [nrm_nonneg (tip - p1)]

/-- **C9 (amended)** For every pair of distinct endpoints, `0 < width`,
`0 < depth` with `width ^ 2 ≤ 2 * depth ^ 2`, and `0 < location < 1`,
`dart v0 v1 width depth location` returns exactly five points
`[entry, flank1, tip, flank2, exit]` such that the two outer flank lengths sum
to `|v1 - v0|`, the tip is at distance exactly `depth` from both flank points,
and each flank meets the fold median at the symmetric half-angle
`arctan((width/2) / sqrt(depth^2 - (width/2)^2))`.  The claim's stated
precondition `width < 2 * depth` alone is not sufficient (see
`dart_tip_misses_depth`); the strengthening `width ^ 2 ≤ 2 * depth ^ 2` keeps
the cosine recovered through `arcsin` nonnegative, which is what the code's
absolute values silently assume. -/
theorem dart_spec (v0 v1 : ℝ × ℝ) (w depth loc : ℝ)
    (hv : v1 ≠ v0) (hw : 0 < w) (hd : 0 < depth)
    (hw2d : w ^ 2 ≤ 2 * depth ^ 2) (hl1 : 0 < loc) (hl2 : loc < 1) :
    ∃ p1 tip p2 nv1, dart v0 v1 w depth loc = [v0, p1, tip, p2, nv1] ∧
      nrm (p1 - v0) + nrm (nv1 - p2) = nrm (v1 - v0) ∧
      nrm (tip - p1) = depth ∧ nrm (tip - p2) = depth ∧
      angleBetween (p1 - tip) ((1 / 2 : ℝ) • (p1 + p2) - tip) =
        Real.arctan (w / 2 / Real.sqrt (depth ^ 2 - (w / 2) ^ 2)) ∧
      angleBetween (p2 - tip) ((1 / 2 : ℝ) • (p1 + p2) - tip) =
        Real.arctan (w / 2 / Real.sqrt (depth ^ 2 - (w / 2) ^ 2)) := by
  have hvsub : v1 - v0 ≠ 0 := sub_ne_zero.mpr hv
  have hvne : nrm (v1 - v0) ≠ 0 := fun h => hvsub ((nrm_eq_zero_iff _).mp h)
  have hL : 0 < nrm (v1 - v0) := lt_of_le_of_ne (nrm_nonneg _) (Ne.symm hvne)
  have hwd : w < 2 * depth := by nlinarith
  have hdpp := dp_pos hwd hw.le
  have hdp2 := dp_sq hwd hw.le
  have hd1 : 0 < (nrm (v1 - v0) * loc) := mul_pos hL hl1
  have hd2 : 0 < (nrm (v1 - v0) * (1 - loc)) := mul_pos hL (by linarith)
  have hdl : 0 < (depth * w / (2 * Real.sqrt (depth ^ 2 - (w / 2) ^ 2))) := by positivity
  have hs0p : 0 < ((nrm (v1 - v0) * loc) + (depth * w / (2 * Real.sqrt (depth ^ 2 - (w / 2) ^ 2)))) := by linarith
  have hs1p : 0 < ((nrm (v1 - v0) * (1 - loc)) + (depth * w / (2 * Real.sqrt (depth ^ 2 - (w / 2) ^ 2)))) := by linarith
  have hccle : (w ^ 2 / (2 * depth ^ 2) - 1) ≤ 0 := by
    rw [sub_nonpos, div_le_one (by positivity)]
    linarith
  have hcgt : -1 < (w ^ 2 / (2 * depth ^ 2) - 1) := by
    have : 0 < w ^ 2 / (2 * depth ^ 2) := by positivity
    linarith
  have hclt : (w ^ 2 / (2 * depth ^ 2) - 1) < 1 := by linarith
  have hEpos : 0 < (((nrm (v1 - v0) * loc) + (depth * w / (2 * Real.sqrt (depth ^ 2 - (w / 2) ^ 2)))) ^ 2 + ((nrm (v1 - v0) * (1 - loc)) + (depth * w / (2 * Real.sqrt (depth ^ 2 - (w / 2) ^ 2)))) ^ 2 - 2 * ((nrm (v1 - v0) * loc) + (depth * w / (2 * Real.sqrt (depth ^ 2 - (w / 2) ^ 2)))) * ((nrm (v1 - v0) * (1 - loc)) + (depth * w / (2 * Real.sqrt (depth ^ 2 - (w / 2) ^ 2)))) * (w ^ 2 / (2 * depth ^ 2) - 1)) := E_pos_spec ((nrm (v1 - v0) * loc) + (depth * w / (2 * Real.sqrt (depth ^ 2 - (w / 2) ^ 2)))) ((nrm (v1 - v0) * (1 - loc)) + (depth * w / (2 * Real.sqrt (depth ^ 2 - (w / 2) ^ 2)))) (w ^ 2 / (2 * depth ^ 2) - 1) hs0p hs1p hcgt hclt
  have hls2 : (Real.sqrt (((nrm (v1 - v0) * loc) + (depth * w / (2 * Real.sqrt (depth ^ 2 - (w / 2) ^ 2)))) ^ 2 + ((nrm (v1 - v0) * (1 - loc)) + (depth * w / (2 * Real.sqrt (depth ^ 2 - (w / 2) ^ 2)))) ^ 2 - 2 * ((nrm (v1 - v0) * loc) + (depth * w / (2 * Real.sqrt (depth ^ 2 - (w / 2) ^ 2)))) * ((nrm (v1 - v0) * (1 - loc)) + (depth * w / (2 * Real.sqrt (depth ^ 2 - (w / 2) ^ 2)))) * (w ^ 2 / (2 * depth ^ 2) - 1))) ^ 2 = (((nrm (v1 - v0) * loc) + (depth * w / (2 * Real.sqrt (depth ^ 2 - (w / 2) ^ 2)))) ^ 2 + ((nrm (v1 - v0) * (1 - loc)) + (depth * w / (2 * Real.sqrt (depth ^ 2 - (w / 2) ^ 2)))) ^ 2 - 2 * ((nrm (v1 - v0) * loc) + (depth * w / (2 * Real.sqrt (depth ^ 2 - (w / 2) ^ 2)))) * ((nrm (v1 - v0) * (1 - loc)) + (depth * w / (2 * Real.sqrt (depth ^ 2 - (w / 2) ^ 2)))) * (w ^ 2 / (2 * depth ^ 2) - 1)) := Real.sq_sqrt hEpos.le
  have hlsne : (Real.sqrt (((nrm (v1 - v0) * loc) + (depth * w / (2 * Real.sqrt (depth ^ 2 - (w / 2) ^ 2)))) ^ 2 + ((nrm (v1 - v0) * (1 - loc)) + (depth * w / (2 * Real.sqrt (depth ^ 2 - (w / 2) ^ 2)))) ^ 2 - 2 * ((nrm (v1 - v0) * loc) + (depth * w / (2 * Real.sqrt (depth ^ 2 - (w / 2) ^ 2)))) * ((nrm (v1 - v0) * (1 - loc)) + (depth * w / (2 * Real.sqrt (depth ^ 2 - (w / 2) ^ 2)))) * (w ^ 2 / (2 * depth ^ 2) - 1))) ≠ 0 := ne_of_gt (Real.sqrt_pos.mpr hEpos)
  have habs1 : |((nrm (v1 - v0) * loc) + (depth * w / (2 * Real.sqrt (depth ^ 2 - (w / 2) ^ 2)))) - ((nrm (v1 - v0) * (1 - loc)) + (depth * w / (2 * Real.sqrt (depth ^ 2 - (w / 2) ^ 2)))) * (w ^ 2 / (2 * depth ^ 2) - 1)| = ((nrm (v1 - v0) * loc) + (depth * w / (2 * Real.sqrt (depth ^ 2 - (w / 2) ^ 2)))) - ((nrm (v1 - v0) * (1 - loc)) + (depth * w / (2 * Real.sqrt (depth ^ 2 - (w / 2) ^ 2)))) * (w ^ 2 / (2 * depth ^ 2) - 1) :=
    abs_of_nonneg (by nlinarith)
  have habs2 : |((nrm (v1 - v0) * (1 - loc)) + (depth * w / (2 * Real.sqrt (depth ^ 2 - (w / 2) ^ 2)))) - ((nrm (v1 - v0) * loc) + (depth * w / (2 * Real.sqrt (depth ^ 2 - (w / 2) ^ 2)))) * (w ^ 2 / (2 * depth ^ 2) - 1)| = ((nrm (v1 - v0) * (1 - loc)) + (depth * w / (2 * Real.sqrt (depth ^ 2 - (w / 2) ^ 2)))) - ((nrm (v1 - v0) * loc) + (depth * w / (2 * Real.sqrt (depth ^ 2 - (w / 2) ^ 2)))) * (w ^ 2 / (2 * depth ^ 2) - 1) :=
    abs_of_nonneg (by nlinarith)
  rw [dart_eq_alg v0 v1 w depth loc hvne hw hwd hd hl1 hl2]
  simp only [dartAlg]
  refine ⟨_, _, _, _, rfl, ?_⟩
  exact dart_points_spec v0 v1 _ _ _ _ (nrm (v1 - v0) * loc) (nrm (v1 - v0) * (1 - loc)) (depth * w / (2 * Real.sqrt (depth ^ 2 - (w / 2) ^ 2))) ((nrm (v1 - v0) * loc) + (depth * w / (2 * Real.sqrt (depth ^ 2 - (w / 2) ^ 2)))) ((nrm (v1 - v0) * (1 - loc)) + (depth * w / (2 * Real.sqrt (depth ^ 2 - (w / 2) ^ 2)))) (w ^ 2 / (2 * depth ^ 2) - 1) (w * Real.sqrt (depth ^ 2 - (w / 2) ^ 2) / depth ^ 2)
    (((nrm (v1 - v0) * loc) + (depth * w / (2 * Real.sqrt (depth ^ 2 - (w / 2) ^ 2)))) ^ 2 + ((nrm (v1 - v0) * (1 - loc)) + (depth * w / (2 * Real.sqrt (depth ^ 2 - (w / 2) ^ 2)))) ^ 2 - 2 * ((nrm (v1 - v0) * loc) + (depth * w / (2 * Real.sqrt (depth ^ 2 - (w / 2) ^ 2)))) * ((nrm (v1 - v0) * (1 - loc)) + (depth * w / (2 * Real.sqrt (depth ^ 2 - (w / 2) ^ 2)))) * (w ^ 2 / (2 * depth ^ 2) - 1)) (Real.sqrt (((nrm (v1 - v0) * loc) + (depth * w / (2 * Real.sqrt (depth ^ 2 - (w / 2) ^ 2)))) ^ 2 + ((nrm (v1 - v0) * (1 - loc)) + (depth * w / (2 * Real.sqrt (depth ^ 2 - (w / 2) ^ 2)))) ^ 2 - 2 * ((nrm (v1 - v0) * loc) + (depth * w / (2 * Real.sqrt (depth ^ 2 - (w / 2) ^ 2)))) * ((nrm (v1 - v0) * (1 - loc)) + (depth * w / (2 * Real.sqrt (depth ^ 2 - (w / 2) ^ 2)))) * (w ^ 2 / (2 * depth ^ 2) - 1))) (Real.sqrt (depth ^ 2 - (w / 2) ^ 2)) w depth hvne hw hd hdpp hd1 hd2 (by ring) rfl rfl rfl
    (sin_cos_top_sq hw.le hwd hd) hls2 hlsne rfl hdp2 rfl habs1 habs2
    rfl rfl rfl rfl

set_option maxHeartbeats 1600000 in
/-- **C9 (counterexample)** At `v0 = (0,0)`, `v1 = (100,0)`, `width = 19/10`,
`depth = 1`, `location = 1/10` -- an input satisfying every stated precondition
of the claim (`0 < width < 2*depth`, `0 < location < 1`, distinct endpoints) --
the `dart` routine returns five points whose tip is at distance strictly greater
than `1` from the first flank point, so the claimed `|tip - flank1| = depth`
fails.  The arcsin-based recovery of `angle0` loses the sign of its cosine
exactly when `width^2 > 2 * depth^2`. -/
theorem dart_tip_misses_depth :
    ((100 : ℝ), (0 : ℝ)) ≠ ((0 : ℝ), (0 : ℝ)) ∧
    (0 : ℝ) < 19 / 10 ∧ (19 / 10 : ℝ) < 2 * 1 ∧
    (0 : ℝ) < 1 / 10 ∧ (1 / 10 : ℝ) < 1 ∧
    ∃ p1 tip p2 nv1,
      dart ((0 : ℝ), (0 : ℝ)) ((100 : ℝ), (0 : ℝ)) (19 / 10) 1 (1 / 10) =
        [((0 : ℝ), (0 : ℝ)), p1, tip, p2, nv1] ∧ nrm (tip - p1) ≠ 1 := by
  have hL : nrm (((100 : ℝ), (0 : ℝ)) - ((0 : ℝ), (0 : ℝ))) = 100 := by
    refine nn_sq_eq (nrm_nonneg _) (by norm_num) ?_
    rw [nrm_sq]
    norm_num
  have hvne : nrm (((100 : ℝ), (0 : ℝ)) - ((0 : ℝ), (0 : ℝ))) ≠ 0 := by
    rw [hL]
    norm_num
  refine ⟨by norm_num [Prod.ext_iff], by norm_num, by norm_num, by norm_num,
    by norm_num, ?_⟩
  rw [dart_eq_alg ((0 : ℝ), (0 : ℝ)) ((100 : ℝ), (0 : ℝ)) (19 / 10) 1 (1 / 10)
    hvne (by norm_num) (by norm_num) (by norm_num) (by norm_num) (by norm_num)]
  simp only [dartAlg]
  rw [hL]
  set q := Real.sqrt ((1 : ℝ) ^ 2 - (19 / 10 / 2) ^ 2) with hqdef
  have hq2 : q ^ 2 = 39 / 400 := by
    rw [hqdef, Real.sq_sqrt (by norm_num)]
    norm_num
  have hqpos : 0 < q := by
    rw [hqdef]
    exact Real.sqrt_pos.mpr (by norm_num)
  have hqlb : (312 / 1000 : ℝ) < q := by nlinarith
  have hqub : q < 313 / 1000 := by nlinarith
  have h2q : (2 : ℝ) * q ≠ 0 := ne_of_gt (by linarith)
  set D := 1 * (19 / 10) / (2 * q) with hDdef
  have hDq : D * (2 * q) = 1 * (19 / 10) := by
    rw [hDdef]
    exact div_mul_cancel₀ _ h2q
  have hDlb : (303 / 100 : ℝ) < D := by nlinarith
  have hDub : D < 305 / 100 := by nlinarith
  have hEval : ((100 * (1 / 10) + D) ^ 2 + (100 * (1 - 1 / 10) + D) ^ 2 - 2 * (100 * (1 / 10) + D) * (100 * (1 - 1 / 10) + D) * ((19 / 10) ^ 2 / (2 * 1 ^ 2) - 1)) = 6751 + 39 * D + 39 / 100 * D ^ 2 := by ring
  have hE2 : 6751 + 39 * D + 39 / 100 * D ^ 2 < 6874 := by nlinarith
  have hEpos : (0 : ℝ) < ((100 * (1 / 10) + D) ^ 2 + (100 * (1 - 1 / 10) + D) ^ 2 - 2 * (100 * (1 / 10) + D) * (100 * (1 - 1 / 10) + D) * ((19 / 10) ^ 2 / (2 * 1 ^ 2) - 1)) := by
    rw [hEval]
    nlinarith
  have hls2 : (Real.sqrt ((100 * (1 / 10) + D) ^ 2 + (100 * (1 - 1 / 10) + D) ^ 2 - 2 * (100 * (1 / 10) + D) * (100 * (1 - 1 / 10) + D) * ((19 / 10) ^ 2 / (2 * 1 ^ 2) - 1))) ^ 2 = ((100 * (1 / 10) + D) ^ 2 + (100 * (1 - 1 / 10) + D) ^ 2 - 2 * (100 * (1 / 10) + D) * (100 * (1 - 1 / 10) + D) * ((19 / 10) ^ 2 / (2 * 1 ^ 2) - 1)) := Real.sq_sqrt hEpos.le
  have hlsne : (Real.sqrt ((100 * (1 / 10) + D) ^ 2 + (100 * (1 - 1 / 10) + D) ^ 2 - 2 * (100 * (1 / 10) + D) * (100 * (1 - 1 / 10) + D) * ((19 / 10) ^ 2 / (2 * 1 ^ 2) - 1))) ≠ 0 := ne_of_gt (Real.sqrt_pos.mpr hEpos)
  have habs1 : |(100 * (1 / 10) + D) - (100 * (1 - 1 / 10) + D) * ((19 / 10) ^ 2 / (2 * 1 ^ 2) - 1)| = -((100 * (1 / 10) + D) - (100 * (1 - 1 / 10) + D) * ((19 / 10) ^ 2 / (2 * 1 ^ 2) - 1)) :=
    abs_of_nonpos (by nlinarith)
  have habs2 : |(100 * (1 - 1 / 10) + D) - (100 * (1 / 10) + D) * ((19 / 10) ^ 2 / (2 * 1 ^ 2) - 1)| = (100 * (1 - 1 / 10) + D) - (100 * (1 / 10) + D) * ((19 / 10) ^ 2 / (2 * 1 ^ 2) - 1) :=
    abs_of_nonneg (by nlinarith)
  have hNval : ((100 * (1 / 10) + D) ^ 2 + (100 * (1 - 1 / 10) + D) ^ 2 - 2 * (100 * (1 / 10) + D) * (100 * (1 - 1 / 10) + D) * ((19 / 10) ^ 2 / (2 * 1 ^ 2) - 1)) - 100 * (1 - 1 / 10) * ((100 * (1 - 1 / 10) + D) - (100 * (1 / 10) + D) * ((19 / 10) ^ 2 / (2 * 1 ^ 2) - 1)) - 100 * (1 / 10) * ((100 * (1 - 1 / 10) + D) * ((19 / 10) ^ 2 / (2 * 1 ^ 2) - 1) - (100 * (1 / 10) + D)) = -1249 + 117 / 5 * D + 39 / 100 * D ^ 2 := by ring
  have hP : -1249 + 117 / 5 * D + 39 / 100 * D ^ 2 < -1170 := by nlinarith
  have hnum : 4 * ((100 * (1 / 10) + D) ^ 2 + (100 * (1 - 1 / 10) + D) ^ 2 - 2 * (100 * (1 / 10) + D) * (100 * (1 - 1 / 10) + D) * ((19 / 10) ^ 2 / (2 * 1 ^ 2) - 1)) < (((100 * (1 / 10) + D) ^ 2 + (100 * (1 - 1 / 10) + D) ^ 2 - 2 * (100 * (1 / 10) + D) * (100 * (1 - 1 / 10) + D) * ((19 / 10) ^ 2 / (2 * 1 ^ 2) - 1)) - 100 * (1 - 1 / 10) * ((100 * (1 - 1 / 10) + D) - (100 * (1 / 10) + D) * ((19 / 10) ^ 2 / (2 * 1 ^ 2) - 1)) - 100 * (1 / 10) * ((100 * (1 - 1 / 10) + D) * ((19 / 10) ^ 2 / (2 * 1 ^ 2) - 1) - (100 * (1 / 10) + D))) ^ 2 := by
    rw [hNval, hEval]
    nlinarith [sq_nonneg (-1249 + 117 / 5 * D + 39 / 100 * D ^ 2 + 1170)]
  refine ⟨_, _, _, _, rfl, ?_⟩
  exact ne_of_gt (dart_points_tip_far ((0 : ℝ), (0 : ℝ)) ((100 : ℝ), (0 : ℝ))
    _ _ _ (100 * (1 / 10)) (100 * (1 - 1 / 10)) (100 * (1 / 10) + D) (100 * (1 - 1 / 10) + D) ((19 / 10) ^ 2 / (2 * 1 ^ 2) - 1) (19 / 10 * q / 1 ^ 2) ((100 * (1 / 10) + D) ^ 2 + (100 * (1 - 1 / 10) + D) ^ 2 - 2 * (100 * (1 / 10) + D) * (100 * (1 - 1 / 10) + D) * ((19 / 10) ^ 2 / (2 * 1 ^ 2) - 1)) (Real.sqrt ((100 * (1 / 10) + D) ^ 2 + (100 * (1 - 1 / 10) + D) ^ 2 - 2 * (100 * (1 / 10) + D) * (100 * (1 - 1 / 10) + D) * ((19 / 10) ^ 2 / (2 * 1 ^ 2) - 1))) q
    hvne hls2 hlsne habs1 habs2 rfl rfl rfl hnum)

theorem dart_spec_witness :
    ∃ p1 tip p2 nv1,
      dart ((0 : ℝ), (0 : ℝ)) ((100 : ℝ), (0 : ℝ)) 5 20 (1 / 2) =
        [((0 : ℝ), (0 : ℝ)), p1, tip, p2, nv1] ∧
      nrm (p1 - ((0 : ℝ), (0 : ℝ))) + nrm (nv1 - p2) =
        nrm (((100 : ℝ), (0 : ℝ)) - ((0 : ℝ), (0 : ℝ))) ∧
      nrm (tip - p1) = 20 ∧ nrm (tip - p2) = 20 ∧
      angleBetween (p1 - tip) ((1 / 2 : ℝ) • (p1 + p2) - tip) =
        Real.arctan (5 / 2 / Real.sqrt ((20 : ℝ) ^ 2 - (5 / 2) ^ 2)) ∧
      angleBetween (p2 - tip) ((1 / 2 : ℝ) • (p1 + p2) - tip) =
        Real.arctan (5 / 2 / Real.sqrt ((20 : ℝ) ^ 2 - (5 / 2) ^ 2)) :=
  dart_spec ((0 : ℝ), (0 : ℝ)) ((100 : ℝ), (0 : ℝ)) 5 20 (1 / 2)
    (by norm_num [Prod.ext_iff]) (by norm_num) (by norm_num) (by norm_num)
    (by norm_num) (by norm_num)

end Darts

end GarmentCode
